import Mathlib

/-!
Verification of the randomchess Position Generation & Engine-Evaluation
Pipeline against its natural-language specification.

The development shallowly embeds the TypeScript sources:
  * `src/services/chess/position-analyzer.ts` (analysis refresh, evaluation
    formatting, the random position generator and its fairness filters),
  * `src/services/chess/chess-utils.ts` (win-chance model),
  * `src/lib/stockfish.ts` (browser engine client and backend fallback),
  * the server analysis route (`POST`, `estimateEvaluation`, `analyzePosition`),
  * `src/lib/constants.ts` (thresholds and engine settings).

The chess rules engine (chess.js) is an external collaborator per the spec:
its check detector and legal-move counter appear as abstract function
parameters (`attacked`, `legalMoves`), and FEN serialization of the piece
placement is treated as an opaque space-free string.  JavaScript numbers are
modelled as rationals where the code manipulates exact quantities and as
reals where it evaluates the transcendental win-probability curve.
-/

namespace RandomChess

/-! ## Data model: colors, pieces, squares, boards -/

inductive Color where
  | white
  | black
deriving DecidableEq, Repr

def Color.opponent : Color → Color
  | .white => .black
  | .black => .white

inductive PieceType where
  | king
  | queen
  | rook
  | bishop
  | knight
  | pawn
deriving DecidableEq, Repr

structure Piece where
  color : Color
  ptype : PieceType
deriving DecidableEq, Repr

/-- A square is a (file index, rank index) pair, both 0–7, matching the
`FILES`/`RANKS` index arrays of the source. -/
abbrev Square := Fin 8 × Fin 8

/-- The board state owned by the constructor: chess.js `get`/`put` are
modelled as lookup and functional update on `Square → Option Piece`. -/
def Board := Square → Option Piece

def emptyBoard : Board := fun _ => none

/-- chess.js `put(piece, square)`: place (replacing) a piece on a square. -/
def Board.put (b : Board) (p : Piece) (sq : Square) : Board :=
  fun s => if s = sq then some p else b s

/-- chess.js `get(square)`. -/
def Board.get (b : Board) (sq : Square) : Option Piece := b sq

/-- All 64 squares, for piece counting. -/
def allSquares : List Square :=
  (List.finRange 8).flatMap (fun f => (List.finRange 8).map (fun r => (f, r)))

/-- Does an occupant belong to color `c`? -/
def colorPred (c : Color) (op : Option Piece) : Bool :=
  match op with
  | some p => p.color = c
  | none => false

/-- Is the occupant exactly the piece `⟨c, t⟩`? -/
def piecePred (c : Color) (t : PieceType) (op : Option Piece) : Bool :=
  op = some ⟨c, t⟩

/-- Number of pieces of one color on the board. -/
def countColor (b : Board) (c : Color) : Nat :=
  allSquares.countP (fun sq => colorPred c (b.get sq))

/-- Number of pieces of one color and type on the board. -/
def countPiece (b : Board) (c : Color) (t : PieceType) : Nat :=
  allSquares.countP (fun sq => piecePred c t (b.get sq))

/-! ## Constants (`src/lib/constants.ts`) -/

def CENTIPAWNS_TO_PAWNS : ℚ := 100

namespace EVALUATION_THRESHOLDS

def BALANCED : ℚ := 25

def SLIGHT_ADVANTAGE : ℚ := 50

def ADVANTAGE : ℚ := 100

def WINNING : ℚ := 300

def DECISIVE : ℚ := 1000

def MATE_THRESHOLD : ℚ := 2000

end EVALUATION_THRESHOLDS

namespace WIN_PROBABILITY

def SIGMOID_FACTOR : ℝ := 0.004

def DRAW_THRESHOLD : ℝ := 350

def MAX_DRAW_PROB : ℝ := 30

end WIN_PROBABILITY

namespace STOCKFISH_ANALYSIS

def DEFAULT_DEPTH : Nat := 15

def ANALYSIS_TIMEOUT : Nat := 10000

def MAX_RETRIES : Nat := 2

end STOCKFISH_ANALYSIS

namespace PIECE_VALUES

def PAWN : Int := 100

def KNIGHT : Int := 320

def BISHOP : Int := 330

def ROOK : Int := 500

def QUEEN : Int := 900

def KING : Int := 0

end PIECE_VALUES

/-! ## Generator options (`position-analyzer.ts`, `PositionGeneratorOptions`) -/

structure FairnessChecks where
  kingsNotInCheck : Bool
  bishopsOnDifferentColors : Bool
  noStalemate : Bool
  evaluationWithinRange : Bool
deriving DecidableEq, Repr

structure PositionGeneratorOptions where
  maxEvaluation : ℚ
  stockfishDepth : Nat
  fairnessChecks : FairnessChecks
deriving DecidableEq, Repr

/-- `DEFAULT_POSITION_OPTIONS` from the source. -/
def DEFAULT_POSITION_OPTIONS : PositionGeneratorOptions :=
  { maxEvaluation := EVALUATION_THRESHOLDS.SLIGHT_ADVANTAGE
    stockfishDepth := 15
    fairnessChecks :=
      { kingsNotInCheck := true
        bishopsOnDifferentColors := true
        noStalemate := true
        evaluationWithinRange := true } }

/-! ## Position constructor (`generateRandomPosition` helpers)

Randomness is abstracted as an oracle `Nat → Nat × Nat`: the `n`-th call of
`getRandomSquare` receives the pair `oracle n` of index choices (the source
draws `Math.floor(Math.random() * len)`, i.e. an arbitrary index below the
list length; the model reduces an arbitrary natural modulo the length).
Unbounded `do … while` loops take a fuel parameter; exhausted fuel maps to
the same "retry the whole position" signal as a placement failure. -/

/-- `isLightSquare` from the source: light iff file index + rank index is
even. -/
def isLightSquare (sq : Square) : Bool := (sq.1.val + sq.2.val) % 2 = 0

/-- One `getRandomSquare(allowedRanks)` call: random file from `FILES`,
random rank from `allowedRanks`. -/
def getRandomSquare (allowedRanks : List (Fin 8)) (draw : Nat × Nat) : Square :=
  (⟨draw.1 % 8, Nat.mod_lt _ (by norm_num)⟩,
    allowedRanks.getD (draw.2 % allowedRanks.length) 0)

/-- `areKingsAdjacent`: true when both the file distance and the rank
distance are at most 1 (character codes and rank digits differ from our
0-based indices by fixed offsets, which cancel in the differences). -/
def areKingsAdjacent (k1 k2 : Square) : Bool :=
  ((k1.1.val : Int) - k2.1.val).natAbs ≤ 1 && ((k1.2.val : Int) - k2.2.val).natAbs ≤ 1

/-- The inner `while (!placed && placementAttempts < 100)` loop of
`placePieces`: draw a square in the zone; place the piece if the square is
empty, otherwise retry, up to `attempts` draws.  Returns the new board and
the advanced oracle counter. -/
def tryPlace (b : Board) (piece : Piece) (allowedRanks : List (Fin 8))
    (oracle : Nat → Nat × Nat) (k : Nat) : Nat → Option (Board × Nat)
  | 0 => none
  | attempts + 1 =>
    let sq := getRandomSquare allowedRanks (oracle k)
    if b.get sq = none then some (b.put piece sq, k + 1)
    else tryPlace b piece allowedRanks oracle (k + 1) attempts

/-- The `for (const piece of piecesToPlace)` loop of `placePieces`. -/
def placeLoop (b : Board) (pieces : List Piece) (allowedRanks : List (Fin 8))
    (oracle : Nat → Nat × Nat) (k : Nat) : Option (Board × Nat) :=
  match pieces with
  | [] => some (b, k)
  | piece :: rest =>
    match tryPlace b piece allowedRanks oracle k 100 with
    | none => none
    | some (b', k') => placeLoop b' rest allowedRanks oracle k'

/-- chess.js `board()` returns ranks top-down: row index `i` of the array
holds the squares of true rank index `7 - i`. -/
def boardRow (i : Fin 8) : Fin 8 := ⟨7 - i.val, by omega⟩

/-- The square-color lists collected by `hasBishopsOnSameColoredSquares` for
one side.  The source iterates the `board()` array row-major and rebuilds
the square name as `FILES[file] + RANKS[rank]` with `rank` being the array
row index — so the color it computes for the piece standing on true rank
`7 - i` uses rank index `i`.  (The flip is uniform across the board, hence
harmless for same-color comparisons; we embed it as written.) -/
def bishopComputedColors (b : Board) (c : Color) : List Bool :=
  (List.finRange 8).flatMap (fun i =>
    (List.finRange 8).filterMap (fun f =>
      match b.get (f, boardRow i) with
      | some p => if p.ptype = .bishop ∧ p.color = c then some (isLightSquare (f, i)) else none
      | none => none))

/-- `hasBishopsOnSameColoredSquares`: some side has at least two bishops on
squares of equal (computed) color. -/
def hasBishopsOnSameColoredSquares (b : Board) : Bool :=
  let whiteBishopSquares := bishopComputedColors b .white
  let blackBishopSquares := bishopComputedColors b .black
  (decide (whiteBishopSquares.length ≥ 2) &&
    (decide (whiteBishopSquares.countP id ≥ 2) ||
      decide (whiteBishopSquares.length - whiteBishopSquares.countP id ≥ 2))) ||
  (decide (blackBishopSquares.length ≥ 2) &&
    (decide (blackBishopSquares.countP id ≥ 2) ||
      decide (blackBishopSquares.length - blackBishopSquares.countP id ≥ 2)))

/-- Helper for reasoning about `bishopComputedColors`: is there a bishop of
color `c` at `board()` row `i`, file `f`? -/
def bishopAt (b : Board) (c : Color) (i f : Fin 8) : Bool :=
  match b.get (f, boardRow i) with
  | some p => decide (p.ptype = .bishop ∧ p.color = c)
  | none => false

/-- All (`board()` row, file) pairs, row-major. -/
def rowPairs : List (Fin 8 × Fin 8) :=
  (List.finRange 8).flatMap (fun i => (List.finRange 8).map (fun f => (i, f)))

/-- `isKingInCheck(chess, color)` from the source: flip the side to move to
the opponent of `color` and query chess.js `inCheck()`.  The rules engine is
external; `attacked b c` abstracts "`inCheck()` on board `b` with `c` to
move", i.e. whether `c`'s king is under attack when it is `c`'s turn. -/
def isKingInCheck (attacked : Board → Color → Bool) (b : Board) (color : Color) : Bool :=
  attacked b color.opponent

/-- `placePieces`: place the listed pieces by first-fit random placement,
then (when `options` is supplied, as in the major/minor-piece calls) run the
enabled early legality checks.  `legalMoves b c` abstracts
`calculateLegalMovesCount` for side `c` (chess.js `moves().length` with the
turn set to `c`). -/
def placePieces (attacked : Board → Color → Bool) (legalMoves : Board → Color → Nat)
    (b : Board) (pieces : List Piece) (allowedRanks : List (Fin 8))
    (oracle : Nat → Nat × Nat) (k : Nat) (options : Option PositionGeneratorOptions) :
    Option (Board × Nat) :=
  match placeLoop b pieces allowedRanks oracle k with
  | none => none
  | some (b', k') =>
    match options with
    | none => some (b', k')
    | some opts =>
      if opts.fairnessChecks.kingsNotInCheck &&
          (isKingInCheck attacked b' .white || isKingInCheck attacked b' .black) then none
      else if opts.fairnessChecks.bishopsOnDifferentColors &&
          hasBishopsOnSameColoredSquares b' then none
      else if opts.fairnessChecks.noStalemate &&
          (legalMoves b' .white == 0 || legalMoves b' .black == 0) then none
      else some (b', k')

/-- The `do … while (areKingsAdjacent …)` king-placement loop: white king on
ranks 1–3, black king on ranks 6–8, redrawn while adjacent. -/
def drawKings (oracle : Nat → Nat × Nat) (k : Nat) : Nat → Option (Square × Square × Nat)
  | 0 => none
  | fuel + 1 =>
    let whiteKingSquare := getRandomSquare [0, 1, 2] (oracle k)
    let blackKingSquare := getRandomSquare [5, 6, 7] (oracle (k + 1))
    if areKingsAdjacent whiteKingSquare blackKingSquare then drawKings oracle (k + 2) fuel
    else some (whiteKingSquare, blackKingSquare, k + 2)

/-- The `whitePieces` array of `generateRandomPosition`. -/
def whitePieces : List Piece :=
  [⟨.white, .queen⟩, ⟨.white, .rook⟩, ⟨.white, .rook⟩,
    ⟨.white, .bishop⟩, ⟨.white, .bishop⟩, ⟨.white, .knight⟩, ⟨.white, .knight⟩]

/-- The `blackPieces` array of `generateRandomPosition`. -/
def blackPieces : List Piece :=
  [⟨.black, .queen⟩, ⟨.black, .rook⟩, ⟨.black, .rook⟩,
    ⟨.black, .bishop⟩, ⟨.black, .bishop⟩, ⟨.black, .knight⟩, ⟨.black, .knight⟩]

/-- Steps 1–3 of one `generateRandomPosition` attempt: place kings, pawns
(ranks 2–4 / 5–7) and the major/minor pieces (own half), with the early
legality checks run on the two piece calls exactly as in the source.  A
`none` result is the "try a new position" signal (`continue`). -/
def generateCandidate (attacked : Board → Color → Bool) (legalMoves : Board → Color → Nat)
    (opts : PositionGeneratorOptions) (oracle : Nat → Nat × Nat) (fuel k : Nat) :
    Option (Board × Nat) :=
  match drawKings oracle k fuel with
  | none => none
  | some (whiteKingSquare, blackKingSquare, k1) =>
    let b0 := (emptyBoard.put ⟨.white, .king⟩ whiteKingSquare).put ⟨.black, .king⟩ blackKingSquare
    match placePieces attacked legalMoves b0 (List.replicate 8 ⟨.white, .pawn⟩) [1, 2, 3] oracle k1 none with
    | none => none
    | some (b1, k2) =>
      match placePieces attacked legalMoves b1 (List.replicate 8 ⟨.black, .pawn⟩) [4, 5, 6] oracle k2 none with
      | none => none
      | some (b2, k3) =>
        match placePieces attacked legalMoves b2 whitePieces [0, 1, 2, 3] oracle k3 (some opts) with
        | none => none
        | some (b3, k4) =>
          match placePieces attacked legalMoves b3 blackPieces [4, 5, 6, 7] oracle k4 (some opts) with
          | none => none
          | some (b4, k5) => some (b4, k5)

/-! ## Analysis refresh (`refreshPositionAnalysis`) and the accept step -/

/-- The `winChance` percentage triple (already rounded to integers). -/
structure WinChance where
  white : Int
  black : Int
  draw : Int
deriving DecidableEq, Repr

/-- The analysis record consumed by `refreshPositionAnalysis`: `score` is in
pawns (both backends divide the engine centipawns by `CENTIPAWNS_TO_PAWNS`),
`mate` the signed mate distance. -/
structure StockfishAnalysisQ where
  score : Option ℚ
  mate : Option Int
deriving DecidableEq, Repr

/-- Statistics computed inside the `try` block from chess.js and the FEN
(material, legal moves, check flag, move counters, repetition). Their
values come from the external rules engine, so they enter as data. -/
structure StatsBundle where
  materialWhite : Int
  materialBlack : Int
  legalWhite : Nat
  legalBlack : Nat
  legalCurrent : Nat
  inCheck : Bool
  moveNumber : Nat
  halfmoveClock : Nat
  repetition : Option Nat
deriving DecidableEq, Repr

/-- `PositionFairnessInfo` from `chess-utils.ts`; `description` keeps only
the translation key (the color parameters do not matter to any claim). -/
structure PositionFairnessInfo where
  isLegal : Bool
  isFair : Bool
  evaluation : ℚ
  forcedMate : Option Int
  winChance : WinChance
  description : String
  materialCount : Option (Int × Int × Int)
  legalMovesCount : Option (Nat × Nat × Nat)
  inCheck : Option Bool
  moveNumber : Option Nat
  halfmoveClock : Option Nat
  repetition : Option Nat
deriving DecidableEq, Repr

/-- `generatePositionDescription` (translation key only; the `side`/`moves`
parameters are dropped). -/
def generatePositionDescription (isLegal isFair : Bool) (evaluation : ℚ)
    (forcedMate : Option Int) : String :=
  if isLegal = false then "analysis:description.illegal"
  else match forcedMate with
    | some _ => "analysis:description.mateIn"
    | none =>
      if |evaluation| < EVALUATION_THRESHOLDS.BALANCED then "analysis:description.balanced"
      else if |evaluation| < EVALUATION_THRESHOLDS.SLIGHT_ADVANTAGE then "analysis:description.slightAdvantage"
      else if |evaluation| < EVALUATION_THRESHOLDS.ADVANTAGE then "analysis:description.advantage"
      else if |evaluation| < EVALUATION_THRESHOLDS.WINNING then "analysis:description.winning"
      else "analysis:description.decisive"

/-- The outcomes of the fallible steps of `refreshPositionAnalysis`.  The
dynamic `await import('../../lib/stockfish')` happens BEFORE the `try`
block; the FEN extraction, the engine evaluation and the statistics
computation happen inside it. -/
structure RefreshInputs where
  importResult : Except String Unit
  fenResult : Except String Unit
  analysisResult : Except String StockfishAnalysisQ
  statsResult : Except String StatsBundle

/-- The fixed record returned by the `catch` branch of
`refreshPositionAnalysis`. -/
def fallbackFairnessInfo : PositionFairnessInfo :=
  { isLegal := false
    isFair := false
    evaluation := 0
    forcedMate := none
    description := "Error analyzing position."
    winChance := ⟨33, 33, 34⟩
    materialCount := none
    legalMovesCount := none
    inCheck := none
    moveNumber := none
    halfmoveClock := none
    repetition := none }

/-- `refreshPositionAnalysis`.  `winCalc` stands for `calculateWinChances`
(defined below over the reals; it is passed as a parameter to keep this
model executable).  An `Except.error` result models a rejected promise; it
can arise only from the dynamic import, which the `try` does not cover. -/
def refreshPositionAnalysis (winCalc : ℚ → Option Int → WinChance) (inp : RefreshInputs) :
    Except String PositionFairnessInfo :=
  match inp.importResult with
  | .error e => .error e
  | .ok _ =>
    .ok (match inp.fenResult, inp.analysisResult, inp.statsResult with
      | .ok _, .ok analysis, .ok stats =>
        let evaluation : ℚ := match analysis.score with
          | some s => s * CENTIPAWNS_TO_PAWNS
          | none => 0
        let forcedMate := analysis.mate
        let isFair := decide (forcedMate = none) &&
          decide (|evaluation| ≤ EVALUATION_THRESHOLDS.SLIGHT_ADVANTAGE)
        { isLegal := true
          isFair := isFair
          evaluation := evaluation
          forcedMate := forcedMate
          winChance := winCalc evaluation forcedMate
          description := generatePositionDescription true isFair evaluation forcedMate
          materialCount := some (stats.materialWhite, stats.materialBlack,
            stats.materialWhite - stats.materialBlack)
          legalMovesCount := some (stats.legalWhite, stats.legalBlack, stats.legalCurrent)
          inCheck := some stats.inCheck
          moveNumber := some stats.moveNumber
          halfmoveClock := some stats.halfmoveClock
          repetition := stats.repetition }
      | _, _, _ => fallbackFairnessInfo)

/-- `fen.replace(/ w | b /, …)` at character level: the first window of the
shape space–(`w`|`b`)–space is replaced by space–`t`–space; everything else
is kept. -/
def replaceTurnChars (t : Char) : List Char → List Char
  | ' ' :: c :: ' ' :: tail =>
    if c = 'w' ∨ c = 'b' then ' ' :: t :: ' ' :: tail
    else ' ' :: replaceTurnChars t (c :: ' ' :: tail)
  | c :: tail => c :: replaceTurnChars t tail
  | [] => []
termination_by l => l.length

/-- An accepted generation result: the emitted FEN (as characters) and the
fairness record built in the accept branch. -/
structure GeneratedPosition where
  fen : List Char
  fairness : PositionFairnessInfo
deriving DecidableEq, Repr

/-- The acceptance condition of `generateRandomPosition` step 7:
`analysis.forcedMate === null && analysis.isFair`.  The merged options are
in scope at this point in the source but the condition does not read them. -/
def acceptCondition (mergedOptions : PositionGeneratorOptions)
    (analysis : PositionFairnessInfo) : Bool :=
  decide (analysis.forcedMate = none) && analysis.isFair

/-- Steps 7–8 of `generateRandomPosition`: accept when the analysis shows no
forced mate and `isFair`, assign the side to move (White iff the evaluation
is non-positive) by rewriting the FEN's turn window, and build the returned
fairness record. -/
def acceptCandidate (winCalc : ℚ → Option Int → WinChance)
    (mergedOptions : PositionGeneratorOptions) (fen : List Char)
    (analysis : PositionFairnessInfo) : Option GeneratedPosition :=
  if acceptCondition mergedOptions analysis then
    let whiteToMove := decide (analysis.evaluation ≤ 0)
    let fen2 := replaceTurnChars (if whiteToMove then 'w' else 'b') fen
    some
      { fen := fen2
        fairness :=
          { isLegal := true
            isFair := true
            evaluation := analysis.evaluation
            forcedMate := none
            winChance := winCalc analysis.evaluation none
            description := generatePositionDescription true true analysis.evaluation none
            materialCount := none
            legalMovesCount := none
            inCheck := none
            moveNumber := none
            halfmoveClock := none
            repetition := none } }
  else none

/-! ## Evaluation formatting (`evaluationToString`) -/

/-- JavaScript `(n / 100).toFixed(2)` for a whole number of centipawns. -/
def toFixed2 (cents : Nat) : String :=
  toString (cents / 100) ++ "." ++ (if cents % 100 < 10 then "0" else "") ++ toString (cents % 100)

/-- `evaluationToString`, on whole centipawn evaluations (every evaluation in
this pipeline is an engine centipawn integer scaled back by 100). -/
def evaluationToString (evaluation : Int) (forcedMate : Option Int) : String :=
  match forcedMate with
  | some m => if m > 0 then "#" ++ toString m else "#-" ++ toString m.natAbs
  | none =>
    if evaluation = 0 then "0.00"
    else (if evaluation > 0 then "+" else "-") ++ toFixed2 evaluation.natAbs

/-! ## Win-chance model (`calculateWinChances`, chess-utils.ts)

The JavaScript floating-point evaluation of the logistic/Gaussian curves is
modelled over the reals; `Math.round` is Mathlib's `round` (both map `x` to
`⌊x + 1/2⌋`). -/

noncomputable def calculateWinChances (evaluation : ℝ) (forcedMate : Option Int) : WinChance :=
  match forcedMate with
  | some m => if m > 0 then ⟨100, 0, 0⟩ else ⟨0, 100, 0⟩
  | none =>
    if |evaluation| > ((EVALUATION_THRESHOLDS.MATE_THRESHOLD : ℚ) : ℝ) then
      if evaluation > 0 then ⟨98, 0, 2⟩ else ⟨0, 98, 2⟩
    else
      let centipawns := evaluation
      let winningChances :=
        50 + 50 * (2 / (1 + Real.exp (-WIN_PROBABILITY.SIGMOID_FACTOR * centipawns)) - 1)
      let drawChance := max 0 (min WIN_PROBABILITY.MAX_DRAW_PROB
        (WIN_PROBABILITY.MAX_DRAW_PROB *
          Real.exp (-(centipawns / WIN_PROBABILITY.DRAW_THRESHOLD) ^ 2)))
      if centipawns ≥ 0 then
        let whiteWinProb := max 0 ((winningChances - drawChance / 2) / 100)
        let blackWinProb := max 0 ((100 - winningChances - drawChance / 2) / 100)
        ⟨round (whiteWinProb * 100), round (blackWinProb * 100), round drawChance⟩
      else
        let blackWinProb := max 0 ((100 - winningChances - drawChance / 2) / 100)
        let whiteWinProb := max 0 ((winningChances - drawChance / 2) / 100)
        ⟨round (whiteWinProb * 100), round (blackWinProb * 100), round drawChance⟩

/-! ## Server analysis route (`POST`, `estimateEvaluation`, `analyzePosition`) -/

/-- The piece-value table of `estimateEvaluation` (from `PIECE_VALUES`). -/
def pieceValue : PieceType → Int
  | .pawn => PIECE_VALUES.PAWN
  | .knight => PIECE_VALUES.KNIGHT
  | .bishop => PIECE_VALUES.BISHOP
  | .rook => PIECE_VALUES.ROOK
  | .queen => PIECE_VALUES.QUEEN
  | .king => PIECE_VALUES.KING

/-- `estimateEvaluation`: signed sum of piece values over the board, White
positive. -/
def estimateEvaluation (b : Board) : Int :=
  allSquares.foldl (fun acc sq =>
    match b sq with
    | none => acc
    | some p => acc + (if p.color = .white then pieceValue p.ptype else -(pieceValue p.ptype))) 0

/-- One `Promise.race([analyzePosition …, timeout])` attempt: either the
engine process delivers a result within the window, or the race rejects. -/
inductive AttemptOutcome where
  | completes (score : ℚ) (mate : Option Int) (bestMove : String)
  | timesOut
deriving DecidableEq, Repr

/-- The race of one attempt: a timeout rejects with `Analysis timeout`. -/
def analyzePositionRace : AttemptOutcome → Except String (ℚ × Option Int × String)
  | .completes s m bm => .ok (s, m, bm)
  | .timesOut => .error "Analysis timeout"

/-- The JSON body the route responds with. -/
structure StockfishRouteResponse where
  score : ℚ
  mate : Option Int
  bestMove : Option String
  depth : Nat
  error : Option String
deriving DecidableEq, Repr

/-- The retry loop of `POST`: up to `MAX_RETRIES + 1` raced attempts,
starting at attempt index `i`. -/
def postTryFrom (attempts : Nat → AttemptOutcome) (i : Nat) : Nat → Option (ℚ × Option Int × String)
  | 0 => none
  | n + 1 =>
    match analyzePositionRace (attempts i) with
    | .ok r => some r
    | .error _ => postTryFrom attempts (i + 1) n

/-- `POST`: return the first successful attempt; if all fail, respond with
the material estimate (converted to pawns) and an explicit error message. -/
def POST (b : Board) (depth : Nat) (attempts : Nat → AttemptOutcome) : StockfishRouteResponse :=
  match postTryFrom attempts 0 (STOCKFISH_ANALYSIS.MAX_RETRIES + 1) with
  | some (s, m, bm) => { score := s, mate := m, bestMove := some bm, depth := depth, error := none }
  | none =>
    { score := (estimateEvaluation b : ℚ) / CENTIPAWNS_TO_PAWNS
      mate := none
      bestMove := none
      depth := depth
      error := some "Analysis failed after multiple attempts, providing estimated evaluation only" }

/-! ## Browser engine client (`StockfishEngine`, stockfish.ts) -/

/-- The accumulated analysis of the worker message handler. -/
structure StockfishAnalysis where
  score : Option ℚ
  mate : Option Int
  bestMove : Option String
  pv : Option (List String)
  depth : Option Nat
deriving DecidableEq, Repr

def emptyAnalysis : StockfishAnalysis := ⟨none, none, none, none, none⟩

def isFileChar (c : Char) : Bool := 'a' ≤ c && c ≤ 'h'

def isRankChar (c : Char) : Bool := '1' ≤ c && c ≤ '8'

def isPromoChar (c : Char) : Bool :=
  c = 'q' || c = 'r' || c = 'b' || c = 'n' || c = 'Q' || c = 'R' || c = 'B' || c = 'N'

def isDigitChar (c : Char) : Bool := '0' ≤ c && c ≤ '9'

def takeDigits (cs : List Char) : List Char := cs.takeWhile isDigitChar

def digitsToNat (ds : List Char) : Nat :=
  ds.foldl (fun acc c => acc * 10 + (c.toNat - '0'.toNat)) 0

/-- `line.includes(pat)`. -/
def hasSubstr (pat : String) (cs : List Char) : Bool := decide (pat.toList <:+: cs)

/-- Match `lit` followed by an optional minus sign and a maximal nonempty
digit run, anchored at the start of `cs` (one candidate position of the
regex `lit(-?\d+)`). -/
def matchIntAt (lit : List Char) (cs : List Char) : Option Int :=
  if lit.isPrefixOf cs then
    match cs.drop lit.length with
    | '-' :: ds =>
      let digits := takeDigits ds
      if digits = [] then none else some (-(digitsToNat digits : Int))
    | ds =>
      let digits := takeDigits ds
      if digits = [] then none else some ((digitsToNat digits : Int))
  else none

/-- `line.match(/lit(-?\d+)/)`: first position where the pattern matches. -/
def searchIntAfter (lit : List Char) : List Char → Option Int
  | [] => none
  | c :: rest =>
    match matchIntAt lit (c :: rest) with
    | some v => some v
    | none => searchIntAfter lit rest

/-- Match `lit` followed by a maximal nonempty digit run (regex
`lit(\d+)`), anchored. -/
def matchNatAt (lit : List Char) (cs : List Char) : Option Nat :=
  if lit.isPrefixOf cs then
    let digits := takeDigits (cs.drop lit.length)
    if digits = [] then none else some (digitsToNat digits)
  else none

/-- `line.match(/lit(\d+)/)`. -/
def searchNatAfter (lit : List Char) : List Char → Option Nat
  | [] => none
  | c :: rest =>
    match matchNatAt lit (c :: rest) with
    | some v => some v
    | none => searchNatAfter lit rest

/-- The move part of `/bestmove ([a-h][1-8][a-h][1-8][qrbnQRBN]?)/`:
a from-square, a to-square and a greedy optional promotion piece. -/
def moveAt : List Char → Option (List Char)
  | f1 :: r1 :: f2 :: r2 :: rest =>
    if isFileChar f1 && isRankChar r1 && isFileChar f2 && isRankChar r2 then
      some (f1 :: r1 :: f2 :: r2 :: (match rest with
        | p :: _ => if isPromoChar p then [p] else []
        | [] => []))
    else none
  | _ => none

/-- One candidate position of the full bestmove pattern: the literal
`bestmove ` followed by a well-formed move. -/
def matchBestmoveAt (cs : List Char) : Option (List Char) :=
  if ("bestmove ".toList).isPrefixOf cs then moveAt (cs.drop 9) else none

/-- Specification-side reading of the regex anchored at the start: the text
begins with `bestmove ` and four coordinate characters (anything may
follow; the optional promotion piece is part of that remainder). -/
def AnchoredBestmove (cs : List Char) : Prop :=
  ∃ f1 r1 f2 r2 post, cs = "bestmove ".toList ++ f1 :: r1 :: f2 :: r2 :: post ∧
    isFileChar f1 = true ∧ isRankChar r1 = true ∧ isFileChar f2 = true ∧ isRankChar r2 = true

/-- Specification-side reading of the whole regex: somewhere in the line,
`bestmove ` is followed by a well-formed coordinate move. -/
def WellFormedBestmoveLine (cs : List Char) : Prop :=
  ∃ pre suf, cs = pre ++ suf ∧ AnchoredBestmove suf

/-- `line.match(/bestmove ([a-h][1-8][a-h][1-8][qrbnQRBN]?)/)`. -/
def searchBestmove : List Char → Option (List Char)
  | [] => none
  | c :: rest =>
    match matchBestmoveAt (c :: rest) with
    | some mv => some mv
    | none => searchBestmove rest

/-- One candidate position of `/pv (.+)/`: `pv ` followed by at least one
character; `.+` greedily captures the rest of the line. -/
def matchPvAt (cs : List Char) : Option (List Char) :=
  if ("pv ".toList).isPrefixOf cs then
    match cs.drop 3 with
    | [] => none
    | rest => some rest
  else none

/-- `line.match(/pv (.+)/)`. -/
def searchPv : List Char → Option (List Char)
  | [] => none
  | c :: rest =>
    match matchPvAt (c :: rest) with
    | some capture => some capture
    | none => searchPv rest

/-- The client state relevant to the message handler: readiness, whether a
`ready` / `bestmove` resolver is registered, and the accumulator. -/
structure EngineState where
  isReady : Bool
  readyPending : Bool
  bestmovePending : Bool
  currentAnalysis : StockfishAnalysis
deriving DecidableEq, Repr

/-- A ready client with one in-flight `evaluatePosition` request. -/
def pendingEngineState : EngineState :=
  { isReady := true
    readyPending := false
    bestmovePending := true
    currentAnalysis := ⟨none, none, none, none, none⟩ }

/-- The `worker.onmessage` handler of `setupWorker`, for one line.  Returns
the next state and `some a` exactly when the handler resolved the pending
`bestmove` promise with analysis `a`.  The handler is a total function: a
line matching none of the substring checks changes nothing (and, in the
source, nothing in the handler can throw on such a line). -/
def processLine (st : EngineState) (line : String) : EngineState × Option StockfishAnalysis :=
  if line = "readyok" then
    ({ st with isReady := true, readyPending := false }, none)
  else
    let cs := line.toList
    let a1 := if hasSubstr "score cp" cs then
        match searchIntAfter ("score cp ".toList) cs with
        | some v => { st.currentAnalysis with score := some ((v : ℚ) / CENTIPAWNS_TO_PAWNS) }
        | none => st.currentAnalysis
      else st.currentAnalysis
    let a2 := if hasSubstr "score mate" cs then
        match searchIntAfter ("score mate ".toList) cs with
        | some v => { a1 with mate := some v }
        | none => a1
      else a1
    let step3 : StockfishAnalysis × Bool × Option StockfishAnalysis :=
      if hasSubstr "bestmove" cs then
        match searchBestmove cs with
        | some mv =>
          let a' := { a2 with bestMove := some (String.mk mv) }
          if st.bestmovePending then (emptyAnalysis, false, some a')
          else (a', st.bestmovePending, none)
        | none => (a2, st.bestmovePending, none)
      else (a2, st.bestmovePending, none)
    let a4 := if hasSubstr "pv" cs then
        match searchPv cs with
        | some capture => { step3.1 with pv := some ((String.mk capture).splitOn " ") }
        | none => step3.1
      else step3.1
    let a5 := if hasSubstr "depth" cs then
        match searchNatAfter ("depth ".toList) cs with
        | some v => { a4 with depth := some v }
        | none => a4
      else a4
    ({ st with currentAnalysis := a5, bestmovePending := step3.2.1 }, step3.2.2)

/-- Feed a whole stream of worker lines; the promise takes the first
resolution (the resolver is deleted when it fires). -/
def runLines (st : EngineState) : List String → EngineState × Option StockfishAnalysis
  | [] => (st, none)
  | l :: rest =>
    let step := processLine st l
    let later := runLines step.1 rest
    (later.1, match step.2 with
      | some a => some a
      | none => later.2)

/-- What `evaluatePosition`'s promise can do. -/
inductive PromiseOutcome where
  | pending
  | resolved (a : StockfishAnalysis)
  | rejected (e : String)
deriving DecidableEq, Repr

/-- The fate of the promise returned by `StockfishEngine.evaluatePosition`
given the stream of lines the worker emits: the executor registers only a
`resolve` callback for the `bestmove` key — there is no timer and no
`reject` anywhere in it. -/
def evaluatePositionOutcome (lines : List String) : PromiseOutcome :=
  let st0 : EngineState :=
    { isReady := true, readyPending := false, bestmovePending := true,
      currentAnalysis := emptyAnalysis }
  match (runLines st0 lines).2 with
  | some a => .resolved a
  | none => .pending

/-! ## Backend fallback chain (`evaluateChessPosition`, stockfish.ts) -/

/-- The `catch`-all result of `evaluateChessPosition` when the browser
engine fails: a constant neutral analysis. -/
def fallbackAnalysis (depth : Nat) : StockfishAnalysis :=
  { score := some 0, mate := none, bestMove := none, pv := none, depth := some depth }

/-- The browser-side branch: first worker evaluation; if it carries neither
score nor mate, one deeper evaluation; any thrown error yields the constant
fallback. -/
def evaluateBrowser (worker1 worker2 : Except String StockfishAnalysis) (depth : Nat) :
    StockfishAnalysis :=
  match worker1 with
  | .ok analysis =>
    if analysis.score = none ∧ analysis.mate = none then
      match worker2 with
      | .ok a2 => a2
      | .error _ => fallbackAnalysis depth
    else analysis
  | .error _ => fallbackAnalysis depth

/-- The route response as the browser parses it (`response.json()` read as a
`StockfishAnalysis`; the `error` field is dropped by the type). -/
def analysisFromRoute (r : StockfishRouteResponse) : StockfishAnalysis :=
  { score := some r.score, mate := r.mate, bestMove := r.bestMove, pv := none,
    depth := some r.depth }

/-- `evaluateChessPosition`: try the server backend (unless disabled or on
GitHub Pages; `none` models a network failure or a non-2xx status), then
the in-process worker, then the constant fallback. -/
def evaluateChessPosition (useServer isGitHubPages : Bool)
    (serverResponse : Option StockfishRouteResponse)
    (worker1 worker2 : Except String StockfishAnalysis) (depth : Nat) : StockfishAnalysis :=
  if useServer && !isGitHubPages then
    match serverResponse with
    | some r => analysisFromRoute r
    | none => evaluateBrowser worker1 worker2 depth
  else evaluateBrowser worker1 worker2 depth

/-! ## Concrete data used by the witnesses -/

/-- A concrete random stream under which one construction attempt succeeds:
kings a1/a6, pawns on ranks 2 and 5, white pieces on rank 1, black pieces
on rank 8. -/
def demoDraws : List (Nat × Nat) :=
  [(0, 0), (0, 0),
   (0, 0), (1, 0), (2, 0), (3, 0), (4, 0), (5, 0), (6, 0), (7, 0),
   (0, 0), (1, 0), (2, 0), (3, 0), (4, 0), (5, 0), (6, 0), (7, 0),
   (1, 0), (2, 0), (3, 0), (4, 0), (5, 0), (6, 0), (7, 0),
   (0, 3), (1, 3), (2, 3), (3, 3), (4, 3), (5, 3), (6, 3)]

def demoOracle (n : Nat) : Nat × Nat := demoDraws.getD n (0, 0)

/-- A rules engine answering "not in check" everywhere (used only to
exercise the model on a concrete run). -/
def noAttack : Board → Color → Bool := fun _ _ => false

/-- A rules engine giving every side one legal move. -/
def oneMove : Board → Color → Nat := fun _ _ => 1

def demoCandidate : Option (Board × Nat) :=
  generateCandidate noAttack oneMove DEFAULT_POSITION_OPTIONS demoOracle 1 0

def demoBoard : Board := (demoCandidate.getD (emptyBoard, 0)).1

def demoCounter : Nat := (demoCandidate.getD (emptyBoard, 0)).2

/-- Stands in for `calculateWinChances` where its values are irrelevant (the
real-valued curve is not computable; `refreshPositionAnalysis` takes the
win-chance function as a parameter). -/
def demoWinCalc : ℚ → Option Int → WinChance := fun _ _ => ⟨0, 0, 0⟩

/-- Arbitrary successfully-computed statistics. -/
def demoStats : StatsBundle :=
  { materialWhite := 39, materialBlack := 39, legalWhite := 20, legalBlack := 20,
    legalCurrent := 20, inCheck := false, moveNumber := 1, halfmoveClock := 0,
    repetition := none }

/-- Options with the fairness bound tightened to 10 centipawns and every
fairness check enabled. -/
def c1Options : PositionGeneratorOptions :=
  { maxEvaluation := 10
    stockfishDepth := 15
    fairnessChecks :=
      { kingsNotInCheck := true
        bishopsOnDifferentColors := true
        noStalemate := true
        evaluationWithinRange := true } }

/-- A refresh run whose engine analysis reports 0.4 pawns (40 centipawns)
and no mate. -/
def c1Inputs : RefreshInputs :=
  { importResult := .ok (), fenResult := .ok (),
    analysisResult := .ok { score := some (2 / 5), mate := none },
    statsResult := .ok demoStats }

def c1Info : PositionFairnessInfo :=
  ((refreshPositionAnalysis demoWinCalc c1Inputs).toOption).getD fallbackFairnessInfo

/-- A refresh run whose engine analysis reports −0.3 pawns, no mate. -/
def c2Inputs : RefreshInputs :=
  { importResult := .ok (), fenResult := .ok (),
    analysisResult := .ok { score := some (-(3 / 10)), mate := none },
    statsResult := .ok demoStats }

def c2Info : PositionFairnessInfo :=
  ((refreshPositionAnalysis demoWinCalc c2Inputs).toOption).getD fallbackFairnessInfo

/-- Inputs on which the dynamic module import itself fails. -/
def c10Inputs : RefreshInputs :=
  { importResult := .error "ChunkLoadError", fenResult := .ok (),
    analysisResult := .ok { score := some 0, mate := none }, statsResult := .ok demoStats }

/-- Inputs whose FEN extraction throws (import succeeded). -/
def c10FenFailInputs : RefreshInputs :=
  { importResult := .ok (), fenResult := .error "fen threw",
    analysisResult := .ok { score := some 0, mate := none }, statsResult := .ok demoStats }

/-- A board with a lone white queen: material estimate 900 centipawns. -/
def c6Board : Board := emptyBoard.put ⟨.white, .queen⟩ (0, 0)

/-! ## Board counting lemmas -/

theorem mem_allSquares (sq : Square) : sq ∈ allSquares := by
  revert sq; decide

theorem nodup_allSquares : allSquares.Nodup := by decide

theorem get_put_self (b : Board) (p : Piece) (sq : Square) : (b.put p sq).get sq = some p := by
  simp [Board.put, Board.get]

theorem get_put_other (b : Board) (p : Piece) (sq s : Square) (h : s ≠ sq) :
    (b.put p sq).get s = b.get s := by
  simp [Board.put, Board.get, h]

/-- Generic: two distinct members of a duplicate-free list satisfying a
predicate force the predicate count to at least 2. -/
theorem two_le_countP {α : Type} (l : List α) (p : α → Bool) (a b : α) (hnd : l.Nodup)
    (hab : a ≠ b) (ha : a ∈ l) (hb : b ∈ l) (hpa : p a = true) (hpb : p b = true) :
    2 ≤ l.countP p := by
  obtain ⟨u, v, rfl⟩ := List.append_of_mem ha
  rw [List.countP_append, List.countP_cons]
  rcases List.mem_append.mp hb with hbu | hbv
  · have h2 : 1 ≤ u.countP p := by
      rcases List.append_of_mem hbu with ⟨u1, u2, rfl⟩
      rw [List.countP_append, List.countP_cons]
      simp [hpb]
      omega
    simp [hpa]
    omega
  · rcases List.mem_cons.mp hbv with rfl | hbv2
    · exact absurd rfl hab
    · have h2 : 1 ≤ v.countP p := by
        rcases List.append_of_mem hbv2 with ⟨v1, v2, rfl⟩
        rw [List.countP_append, List.countP_cons]
        simp [hpb]
        omega
      simp [hpa]
      omega

/-- Counting change of a `put` on an empty square, for an arbitrary
square-level predicate. -/
theorem countP_put_empty (b : Board) (p : Piece) (sq : Square)
    (hempty : b.get sq = none) (pred : Option Piece → Bool) (hnone : pred none = false) :
    allSquares.countP (fun s => pred ((b.put p sq).get s)) =
      allSquares.countP (fun s => pred (b.get s)) + (if pred (some p) then 1 else 0) := by
  obtain ⟨u, v, huv⟩ := List.append_of_mem (mem_allSquares sq)
  have hnd := nodup_allSquares
  rw [huv] at hnd
  have hsqu : sq ∉ u := fun hmem =>
    (List.disjoint_of_nodup_append hnd) hmem (List.mem_cons_self sq v)
  have hsqv : sq ∉ v := by
    have h := (List.nodup_append.mp hnd).2.1
    exact (List.nodup_cons.mp h).1
  have hu : u.countP (fun s => pred ((b.put p sq).get s)) = u.countP (fun s => pred (b.get s)) :=
    List.countP_congr (fun s hs => by
      rw [get_put_other b p sq s (fun h => hsqu (h ▸ hs))])
  have hv : v.countP (fun s => pred ((b.put p sq).get s)) = v.countP (fun s => pred (b.get s)) :=
    List.countP_congr (fun s hs => by
      rw [get_put_other b p sq s (fun h => hsqv (h ▸ hs))])
  rw [huv]
  simp only [List.countP_append, List.countP_cons, hu, hv, get_put_self, hempty, hnone]
  cases hp : pred (some p) <;> simp [hp] <;> omega

/-! ## Placement loop invariants -/

theorem getRandomSquare_rank_mem {ranks : List (Fin 8)} (hne : ranks ≠ []) (draw : Nat × Nat) :
    (getRandomSquare ranks draw).2 ∈ ranks := by
  have hlen : 0 < ranks.length := List.length_pos.mpr hne
  have hlt : draw.2 % ranks.length < ranks.length := Nat.mod_lt _ hlen
  simp only [getRandomSquare]
  rw [List.getD_eq_getElem ranks 0 hlt]
  exact List.getElem_mem hlt

theorem tryPlace_spec (piece : Piece) (ranks : List (Fin 8)) (oracle : Nat → Nat × Nat)
    (hne : ranks ≠ []) :
    ∀ (attempts : Nat) (b : Board) (k : Nat) (b' : Board) (k' : Nat),
      tryPlace b piece ranks oracle k attempts = some (b', k') →
      ∃ sq, b.get sq = none ∧ sq.2 ∈ ranks ∧ b' = b.put piece sq := by
  intro attempts
  induction attempts with
  | zero =>
    intro b k b' k' h
    simp [tryPlace] at h
  | succ n ih =>
    intro b k b' k' h
    simp only [tryPlace] at h
    by_cases hempty : b.get (getRandomSquare ranks (oracle k)) = none
    · rw [if_pos hempty] at h
      simp only [Option.some.injEq, Prod.mk.injEq] at h
      exact ⟨getRandomSquare ranks (oracle k), hempty,
        getRandomSquare_rank_mem hne (oracle k), h.1.symm⟩
    · rw [if_neg hempty] at h
      exact ih b (k + 1) b' k' h

theorem placeLoop_spec (ranks : List (Fin 8)) (oracle : Nat → Nat × Nat)
    (hne : ranks ≠ []) :
    ∀ (pieces : List Piece) (b : Board) (k : Nat) (b' : Board) (k' : Nat),
      placeLoop b pieces ranks oracle k = some (b', k') →
      (∀ sq p, b.get sq = some p → b'.get sq = some p) ∧
      (∀ pred : Option Piece → Bool, pred none = false →
        allSquares.countP (fun s => pred (b'.get s)) =
          allSquares.countP (fun s => pred (b.get s)) +
            pieces.countP (fun q => pred (some q))) ∧
      (∀ sq p, b'.get sq = some p → b.get sq = some p ∨ (p ∈ pieces ∧ sq.2 ∈ ranks)) := by
  intro pieces
  induction pieces with
  | nil =>
    intro b k b' k' h
    simp only [placeLoop, Option.some.injEq, Prod.mk.injEq] at h
    obtain ⟨rfl, -⟩ := h
    refine ⟨fun sq p hp => hp, fun pred _ => by simp, fun sq p hp => Or.inl hp⟩
  | cons piece rest ih =>
    intro b k b' k' h
    simp only [placeLoop] at h
    cases htp : tryPlace b piece ranks oracle k 100 with
    | none => rw [htp] at h; exact absurd h (by simp)
    | some bk1 =>
      rw [htp] at h
      obtain ⟨b1, k1⟩ := bk1
      obtain ⟨sq0, hempty, hrank, rfl⟩ := tryPlace_spec piece ranks oracle hne 100 b k b1 k1 htp
      obtain ⟨hkeep, hcount, horig⟩ := ih (b.put piece sq0) k1 b' k' h
      refine ⟨?_, ?_, ?_⟩
      · intro sq p hp
        refine hkeep sq p ?_
        rw [get_put_other b piece sq0 sq ?_]
        · exact hp
        · rintro rfl
          rw [hempty] at hp
          exact Option.noConfusion hp
      · intro pred hpred
        rw [hcount pred hpred, countP_put_empty b piece sq0 hempty pred hpred,
          List.countP_cons]
        omega
      · intro sq p hp
        rcases horig sq p hp with hp1 | ⟨hmem, hr⟩
        · by_cases hsq : sq = sq0
          · subst hsq
            rw [get_put_self] at hp1
            refine Or.inr ⟨?_, hrank⟩
            cases hp1
            exact List.mem_cons_self piece rest
          · rw [get_put_other b piece sq0 sq hsq] at hp1
            exact Or.inl hp1
        · exact Or.inr ⟨List.mem_cons_of_mem piece hmem, hr⟩

/-- A `placePieces` call without options is the bare placement loop. -/
theorem placePieces_none_eq (attacked : Board → Color → Bool)
    (legalMoves : Board → Color → Nat) (b : Board) (pieces : List Piece)
    (ranks : List (Fin 8)) (oracle : Nat → Nat × Nat) (k : Nat) :
    placePieces attacked legalMoves b pieces ranks oracle k none =
      placeLoop b pieces ranks oracle k := by
  simp only [placePieces]
  cases placeLoop b pieces ranks oracle k with
  | none => rfl
  | some bk => rfl

/-- A successful `placePieces` call with options is the placement loop plus
the guarantee that every enabled early check passed on the result. -/
theorem placePieces_some_spec (attacked : Board → Color → Bool)
    (legalMoves : Board → Color → Nat) (b : Board) (pieces : List Piece)
    (ranks : List (Fin 8)) (oracle : Nat → Nat × Nat) (k : Nat)
    (opts : PositionGeneratorOptions) (b' : Board) (k' : Nat)
    (h : placePieces attacked legalMoves b pieces ranks oracle k (some opts) = some (b', k')) :
    placeLoop b pieces ranks oracle k = some (b', k') ∧
    (opts.fairnessChecks.kingsNotInCheck = true →
      attacked b' .white = false ∧ attacked b' .black = false) ∧
    (opts.fairnessChecks.bishopsOnDifferentColors = true →
      hasBishopsOnSameColoredSquares b' = false) ∧
    (opts.fairnessChecks.noStalemate = true →
      legalMoves b' .white ≠ 0 ∧ legalMoves b' .black ≠ 0) := by
  simp only [placePieces] at h
  cases hpl : placeLoop b pieces ranks oracle k with
  | none => rw [hpl] at h; exact absurd h (by simp)
  | some bk0 =>
    rw [hpl] at h
    obtain ⟨b0, k0⟩ := bk0
    dsimp only at h
    by_cases h1 : (opts.fairnessChecks.kingsNotInCheck &&
        (isKingInCheck attacked b0 .white || isKingInCheck attacked b0 .black)) = true
    · rw [if_pos h1] at h; exact absurd h (by simp)
    · rw [if_neg h1] at h
      by_cases h2 : (opts.fairnessChecks.bishopsOnDifferentColors &&
          hasBishopsOnSameColoredSquares b0) = true
      · rw [if_pos h2] at h; exact absurd h (by simp)
      · rw [if_neg h2] at h
        by_cases h3 : (opts.fairnessChecks.noStalemate &&
            (legalMoves b0 .white == 0 || legalMoves b0 .black == 0)) = true
        · rw [if_pos h3] at h; exact absurd h (by simp)
        · rw [if_neg h3] at h
          simp only [Option.some.injEq, Prod.mk.injEq] at h
          obtain ⟨rfl, rfl⟩ := h
          simp only [Bool.and_eq_true, Bool.or_eq_true, not_and, not_or] at h1 h2 h3
          refine ⟨rfl, ?_, ?_, ?_⟩
          · intro hk
            obtain ⟨h1w, h1b⟩ := h1 hk
            constructor
            · cases hatt : attacked b0 Color.white
              · rfl
              · exact absurd (show isKingInCheck attacked b0 Color.black = true by
                  simpa [isKingInCheck, Color.opponent] using hatt) h1b
            · cases hatt : attacked b0 Color.black
              · rfl
              · exact absurd (show isKingInCheck attacked b0 Color.white = true by
                  simpa [isKingInCheck, Color.opponent] using hatt) h1w
          · intro hk
            cases hh : hasBishopsOnSameColoredSquares b0
            · rfl
            · exact absurd hh (h2 hk)
          · intro hk
            obtain ⟨hw, hb⟩ := h3 hk
            constructor
            · intro hzero
              exact hw (by simp [hzero])
            · intro hzero
              exact hb (by simp [hzero])

theorem mem_wkRanks : ∀ r ∈ ([0, 1, 2] : List (Fin 8)), r.val ≤ 2 := by decide

theorem mem_bkRanks : ∀ r ∈ ([5, 6, 7] : List (Fin 8)), 5 ≤ r.val := by decide

theorem drawKings_spec (oracle : Nat → Nat × Nat) :
    ∀ (fuel k : Nat) (wk bk : Square) (k' : Nat),
      drawKings oracle k fuel = some (wk, bk, k') →
      wk.2.val ≤ 2 ∧ 5 ≤ bk.2.val ∧ areKingsAdjacent wk bk = false := by
  intro fuel
  induction fuel with
  | zero =>
    intro k wk bk k' h
    simp [drawKings] at h
  | succ n ih =>
    intro k wk bk k' h
    simp only [drawKings] at h
    by_cases hadj : areKingsAdjacent (getRandomSquare [0, 1, 2] (oracle k))
        (getRandomSquare [5, 6, 7] (oracle (k + 1))) = true
    · rw [if_pos hadj] at h
      exact ih (k + 2) wk bk k' h
    · rw [if_neg hadj] at h
      simp only [Option.some.injEq, Prod.mk.injEq] at h
      obtain ⟨rfl, rfl, rfl⟩ := h
      refine ⟨mem_wkRanks _ (getRandomSquare_rank_mem (by decide) (oracle k)),
        mem_bkRanks _ (getRandomSquare_rank_mem (by decide) (oracle (k + 1))), ?_⟩
      cases hb : areKingsAdjacent (getRandomSquare [0, 1, 2] (oracle k))
          (getRandomSquare [5, 6, 7] (oracle (k + 1)))
      · rfl
      · exact absurd hb hadj

/-- All the facts one successful construction attempt guarantees about the
candidate board: exact piece multiset (as a generic occupancy count), the
kings on record with their non-adjacency, and every enabled early check
passed. -/
theorem generateCandidate_spec (attacked : Board → Color → Bool)
    (legalMoves : Board → Color → Nat) (opts : PositionGeneratorOptions)
    (oracle : Nat → Nat × Nat) (fuel k : Nat) (b' : Board) (k' : Nat)
    (h : generateCandidate attacked legalMoves opts oracle fuel k = some (b', k')) :
    (∀ pred : Option Piece → Bool, pred none = false →
      allSquares.countP (fun s => pred (b'.get s)) =
        (if pred (some ⟨.white, .king⟩) then 1 else 0) +
        (if pred (some ⟨.black, .king⟩) then 1 else 0) +
        (List.replicate 8 (⟨.white, .pawn⟩ : Piece) ++ List.replicate 8 (⟨.black, .pawn⟩ : Piece) ++
          whitePieces ++ blackPieces).countP (fun q => pred (some q))) ∧
    (∃ wk bk, b'.get wk = some ⟨.white, .king⟩ ∧ b'.get bk = some ⟨.black, .king⟩ ∧
      areKingsAdjacent wk bk = false) ∧
    (opts.fairnessChecks.kingsNotInCheck = true →
      attacked b' .white = false ∧ attacked b' .black = false) ∧
    (opts.fairnessChecks.bishopsOnDifferentColors = true →
      hasBishopsOnSameColoredSquares b' = false) ∧
    (opts.fairnessChecks.noStalemate = true →
      legalMoves b' .white ≠ 0 ∧ legalMoves b' .black ≠ 0) := by
  simp only [generateCandidate] at h
  cases hdk : drawKings oracle k fuel with
  | none => rw [hdk] at h; exact absurd h (by simp)
  | some kings =>
    rw [hdk] at h
    obtain ⟨wk, bk, k1⟩ := kings
    dsimp only at h
    obtain ⟨hwkr, hbkr, hadj⟩ := drawKings_spec oracle fuel k wk bk k1 hdk
    have hwkbk : wk ≠ bk := by
      intro he
      rw [he] at hwkr
      omega
    simp only [placePieces_none_eq] at h
    cases hp1 : placeLoop ((emptyBoard.put ⟨.white, .king⟩ wk).put ⟨.black, .king⟩ bk)
        (List.replicate 8 ⟨.white, .pawn⟩) [1, 2, 3] oracle k1 with
    | none => rw [hp1] at h; exact absurd h (by simp)
    | some p1 =>
      rw [hp1] at h
      obtain ⟨b1, k2⟩ := p1
      dsimp only at h
      cases hp2 : placeLoop b1 (List.replicate 8 ⟨.black, .pawn⟩) [4, 5, 6] oracle k2 with
      | none => rw [hp2] at h; exact absurd h (by simp)
      | some p2 =>
        rw [hp2] at h
        obtain ⟨b2, k3⟩ := p2
        dsimp only at h
        cases hp3 : placePieces attacked legalMoves b2 whitePieces [0, 1, 2, 3] oracle k3
            (some opts) with
        | none => rw [hp3] at h; exact absurd h (by simp)
        | some p3 =>
          rw [hp3] at h
          obtain ⟨b3, k4⟩ := p3
          dsimp only at h
          cases hp4 : placePieces attacked legalMoves b3 blackPieces [4, 5, 6, 7] oracle k4
              (some opts) with
          | none => rw [hp4] at h; exact absurd h (by simp)
          | some p4 =>
            rw [hp4] at h
            obtain ⟨b4, k5⟩ := p4
            dsimp only at h
            simp only [Option.some.injEq, Prod.mk.injEq] at h
            obtain ⟨rfl, rfl⟩ := h
            obtain ⟨hpl3, hchk3⟩ := placePieces_some_spec attacked legalMoves b2 whitePieces
              [0, 1, 2, 3] oracle k3 opts b3 k4 hp3
            obtain ⟨hpl4, hchk4w, hchk4b, hchk4s⟩ := placePieces_some_spec attacked legalMoves
              b3 blackPieces [4, 5, 6, 7] oracle k4 opts b4 k5 hp4
            obtain ⟨hkeep1, hcnt1, -⟩ := placeLoop_spec [1, 2, 3] oracle (by decide) _ _ k1 b1 k2 hp1
            obtain ⟨hkeep2, hcnt2, -⟩ := placeLoop_spec [4, 5, 6] oracle (by decide) _ b1 k2 b2 k3 hp2
            obtain ⟨hkeep3, hcnt3, -⟩ := placeLoop_spec [0, 1, 2, 3] oracle (by decide) _ b2 k3 b3 k4 hpl3
            obtain ⟨hkeep4, hcnt4, -⟩ := placeLoop_spec [4, 5, 6, 7] oracle (by decide) _ b3 k4 b4 k5 hpl4
            have hb0bk : ((emptyBoard.put ⟨.white, .king⟩ wk).put ⟨.black, .king⟩ bk).get bk =
                some ⟨.black, .king⟩ := get_put_self _ _ _
            have hb0wk : ((emptyBoard.put ⟨.white, .king⟩ wk).put ⟨.black, .king⟩ bk).get wk =
                some ⟨.white, .king⟩ := by
              rw [get_put_other _ _ _ _ hwkbk, get_put_self]
            refine ⟨?_, ⟨wk, bk, ?_, ?_, hadj⟩, ?_, hchk4b, hchk4s⟩
            · intro pred hpred
              have he0 : allSquares.countP (fun s => pred (emptyBoard.get s)) = 0 := by
                refine List.countP_eq_zero.mpr (fun a _ => by simp [emptyBoard, Board.get, hpred])
              have hbkempty : ((emptyBoard.put ⟨.white, .king⟩ wk)).get bk = none := by
                rw [get_put_other _ _ _ _ (Ne.symm hwkbk)]
                rfl
              have hwkempty : emptyBoard.get wk = none := rfl
              have hc0 : allSquares.countP
                  (fun s => pred (((emptyBoard.put ⟨.white, .king⟩ wk).put ⟨.black, .king⟩ bk).get s)) =
                  (if pred (some ⟨.white, .king⟩) then 1 else 0) +
                    (if pred (some ⟨.black, .king⟩) then 1 else 0) := by
                rw [countP_put_empty _ _ _ hbkempty pred hpred,
                  countP_put_empty _ _ _ hwkempty pred hpred, he0]
                omega
              rw [hcnt4 pred hpred, hcnt3 pred hpred, hcnt2 pred hpred, hcnt1 pred hpred, hc0]
              simp only [List.countP_append]
              omega
            · exact hkeep4 wk _ (hkeep3 wk _ (hkeep2 wk _ (hkeep1 wk _ hb0wk)))
            · exact hkeep4 bk _ (hkeep3 bk _ (hkeep2 bk _ (hkeep1 bk _ hb0bk)))
            · exact hchk4w

/-- C3: every position returned by generateRandomPosition contains exactly
16 pieces per side (1 king, 8 pawns, 1 queen, 2 rooks, 2 bishops, 2 knights
each), exactly one king per side, the two kings are never Chebyshev-adjacent,
and, when the `kingsNotInCheck` check is enabled, neither side is in check
under its own turn.  (The board of a returned position is the successfully
constructed candidate; the engine-acceptance step and the FEN round trip
through the external rules engine do not move pieces.) -/
theorem generatedPosition_piece_invariants (attacked : Board → Color → Bool)
    (legalMoves : Board → Color → Nat) (opts : PositionGeneratorOptions)
    (oracle : Nat → Nat × Nat) (fuel k : Nat) (b' : Board) (k' : Nat)
    (h : generateCandidate attacked legalMoves opts oracle fuel k = some (b', k')) :
    countColor b' .white = 16 ∧ countColor b' .black = 16 ∧
    countPiece b' .white .king = 1 ∧ countPiece b' .white .pawn = 8 ∧
    countPiece b' .white .queen = 1 ∧ countPiece b' .white .rook = 2 ∧
    countPiece b' .white .bishop = 2 ∧ countPiece b' .white .knight = 2 ∧
    countPiece b' .black .king = 1 ∧ countPiece b' .black .pawn = 8 ∧
    countPiece b' .black .queen = 1 ∧ countPiece b' .black .rook = 2 ∧
    countPiece b' .black .bishop = 2 ∧ countPiece b' .black .knight = 2 ∧
    (∀ s1 s2, b'.get s1 = some ⟨.white, .king⟩ → b'.get s2 = some ⟨.black, .king⟩ →
      areKingsAdjacent s1 s2 = false) ∧
    (opts.fairnessChecks.kingsNotInCheck = true →
      attacked b' .white = false ∧ attacked b' .black = false) := by
  obtain ⟨hcount, ⟨wk, bk, hwk, hbk, hadj⟩, hchk, -, -⟩ :=
    generateCandidate_spec attacked legalMoves opts oracle fuel k b' k' h
  have hpc : ∀ (c : Color) (t : PieceType) (n : Nat),
      ((if piecePred c t (some ⟨.white, .king⟩) then 1 else 0) +
        (if piecePred c t (some ⟨.black, .king⟩) then 1 else 0) +
        (List.replicate 8 (⟨.white, .pawn⟩ : Piece) ++ List.replicate 8 (⟨.black, .pawn⟩ : Piece) ++
          whitePieces ++ blackPieces).countP (fun q => piecePred c t (some q)) = n) →
      countPiece b' c t = n := by
    intro c t n hn
    unfold countPiece
    rw [hcount (piecePred c t) rfl, hn]
  have hwking : countPiece b' .white .king = 1 := hpc _ _ _ (by decide)
  have hbking : countPiece b' .black .king = 1 := hpc _ _ _ (by decide)
  have huniqw : ∀ s, b'.get s = some ⟨.white, .king⟩ → s = wk := by
    intro s hs
    by_contra hne
    have h2 := two_le_countP allSquares (fun sq => piecePred .white .king (b'.get sq)) s wk
      nodup_allSquares hne (mem_allSquares s) (mem_allSquares wk)
      (by simp [piecePred, hs]) (by simp [piecePred, hwk])
    have h1 := hwking
    unfold countPiece at h1
    omega
  have huniqb : ∀ s, b'.get s = some ⟨.black, .king⟩ → s = bk := by
    intro s hs
    by_contra hne
    have h2 := two_le_countP allSquares (fun sq => piecePred .black .king (b'.get sq)) s bk
      nodup_allSquares hne (mem_allSquares s) (mem_allSquares bk)
      (by simp [piecePred, hs]) (by simp [piecePred, hbk])
    have h1 := hbking
    unfold countPiece at h1
    omega
  refine ⟨?_, ?_, hwking, hpc _ _ _ (by decide), hpc _ _ _ (by decide), hpc _ _ _ (by decide),
    hpc _ _ _ (by decide), hpc _ _ _ (by decide), hbking, hpc _ _ _ (by decide),
    hpc _ _ _ (by decide), hpc _ _ _ (by decide), hpc _ _ _ (by decide), hpc _ _ _ (by decide),
    ?_, hchk⟩
  · unfold countColor
    rw [hcount (colorPred .white) rfl]
    decide
  · unfold countColor
    rw [hcount (colorPred .black) rfl]
    decide
  · intro s1 s2 h1 h2
    rw [huniqw s1 h1, huniqb s2 h2]
    exact hadj

/-- Witness for C3: the invariants hold on the concretely generated board. -/
theorem generatedPosition_piece_invariants_witness :
    generateCandidate noAttack oneMove DEFAULT_POSITION_OPTIONS demoOracle 1 0 =
      some (demoBoard, demoCounter) ∧
    (countColor demoBoard .white = 16 ∧ countColor demoBoard .black = 16 ∧
      countPiece demoBoard .white .king = 1 ∧ countPiece demoBoard .white .pawn = 8 ∧
      countPiece demoBoard .white .queen = 1 ∧ countPiece demoBoard .white .rook = 2 ∧
      countPiece demoBoard .white .bishop = 2 ∧ countPiece demoBoard .white .knight = 2 ∧
      countPiece demoBoard .black .king = 1 ∧ countPiece demoBoard .black .pawn = 8 ∧
      countPiece demoBoard .black .queen = 1 ∧ countPiece demoBoard .black .rook = 2 ∧
      countPiece demoBoard .black .bishop = 2 ∧ countPiece demoBoard .black .knight = 2 ∧
      (∀ s1 s2, demoBoard.get s1 = some ⟨.white, .king⟩ →
        demoBoard.get s2 = some ⟨.black, .king⟩ → areKingsAdjacent s1 s2 = false) ∧
      (DEFAULT_POSITION_OPTIONS.fairnessChecks.kingsNotInCheck = true →
        noAttack demoBoard .white = false ∧ noAttack demoBoard .black = false)) :=
  ⟨rfl, generatedPosition_piece_invariants noAttack oneMove DEFAULT_POSITION_OPTIONS demoOracle
    1 0 demoBoard demoCounter rfl⟩

/-! ## Bishop square-color analysis (C4) -/

theorem countP_filterMap_ite {α β : Type} (l : List α) (p : α → Bool) (g : α → β)
    (q : β → Bool) :
    (l.filterMap (fun a => if p a then some (g a) else none)).countP q =
      l.countP (fun a => p a && q (g a)) := by
  induction l with
  | nil => rfl
  | cons a t iht =>
    cases hp : p a
    · simp [List.filterMap_cons, hp, iht, List.countP_cons]
    · simp [List.filterMap_cons, hp, iht, List.countP_cons]

theorem countP_flatMap_sum {α β : Type} (l : List α) (g : α → List β) (q : β → Bool) :
    (l.flatMap g).countP q = (l.map (fun a => (g a).countP q)).sum := by
  induction l with
  | nil => rfl
  | cons a t iht => simp [List.countP_append, iht]

theorem bishopComputedColors_eq (b : Board) (c : Color) :
    bishopComputedColors b c = (List.finRange 8).flatMap (fun i =>
      (List.finRange 8).filterMap (fun f =>
        if bishopAt b c i f then some (isLightSquare (f, i)) else none)) := by
  unfold bishopComputedColors
  congr 1
  funext i
  apply List.filterMap_congr
  intro f _
  unfold bishopAt
  cases hbg : b.get (f, boardRow i) with
  | none => rfl
  | some p =>
    by_cases hc : p.ptype = PieceType.bishop ∧ p.color = c
    · simp [hc]
    · simp [hc]

theorem bishopColors_countP (b : Board) (c : Color) (q : Bool → Bool) :
    (bishopComputedColors b c).countP q =
      rowPairs.countP (fun x => bishopAt b c x.1 x.2 && q (isLightSquare (x.2, x.1))) := by
  rw [bishopComputedColors_eq]
  unfold rowPairs
  rw [countP_flatMap_sum, countP_flatMap_sum]
  apply congrArg List.sum
  apply List.map_congr_left
  intro i _
  rw [countP_filterMap_ite, List.countP_map]
  rfl

theorem bishopColors_length (b : Board) (c : Color) :
    (bishopComputedColors b c).length = rowPairs.countP (fun x => bishopAt b c x.1 x.2) := by
  have h := bishopColors_countP b c (fun _ => true)
  simpa [List.countP_true] using h

theorem rowPairs_nodup : rowPairs.Nodup := by decide

theorem mem_rowPairs (x : Fin 8 × Fin 8) : x ∈ rowPairs := by
  revert x; decide

/-- Passing the bishop filter forces any two same-side bishops onto
differently-colored squares in the true (file + rank) parity sense. -/
theorem bishops_differ_of_not_sameColored (b : Board)
    (hfalse : hasBishopsOnSameColoredSquares b = false) (c : Color) (s1 s2 : Square)
    (h1 : b.get s1 = some ⟨c, .bishop⟩) (h2 : b.get s2 = some ⟨c, .bishop⟩)
    (hne : s1 ≠ s2) :
    (s1.1.val + s1.2.val) % 2 ≠ (s2.1.val + s2.2.val) % 2 := by
  intro hpar
  have hr1 : s1.2.val ≤ 7 := by omega
  have hr2 : s2.2.val ≤ 7 := by omega
  refine absurd hfalse ?_
  simp only [Bool.not_eq_false]
  set i1 : Fin 8 := ⟨7 - s1.2.val, by omega⟩ with hi1
  set i2 : Fin 8 := ⟨7 - s2.2.val, by omega⟩ with hi2
  have hrow1 : boardRow i1 = s1.2 := by
    apply Fin.ext
    simp only [boardRow, hi1]
    omega
  have hrow2 : boardRow i2 = s2.2 := by
    apply Fin.ext
    simp only [boardRow, hi2]
    omega
  have hb1 : bishopAt b c i1 s1.1 = true := by
    unfold bishopAt
    rw [hrow1, show ((s1.1, s1.2) : Square) = s1 from rfl, h1]
    simp
  have hb2 : bishopAt b c i2 s2.1 = true := by
    unfold bishopAt
    rw [hrow2, show ((s2.1, s2.2) : Square) = s2 from rfl, h2]
    simp
  have hpairne : ((i1, s1.1) : Fin 8 × Fin 8) ≠ (i2, s2.1) := by
    intro he
    simp only [Prod.mk.injEq] at he
    apply hne
    have hieq : s1.2 = s2.2 := by
      apply Fin.ext
      have := congrArg Fin.val he.1
      simp only [hi1, hi2] at this
      omega
    have : s1 = (s1.1, s1.2) := rfl
    rw [this, he.2, hieq]
  have hveq : isLightSquare (s2.1, i2) = isLightSquare (s1.1, i1) := by
    simp only [isLightSquare, hi1, hi2, decide_eq_decide]
    omega
  cases hv : isLightSquare (s1.1, i1) with
  | true =>
    have hcnt := two_le_countP rowPairs
      (fun x => bishopAt b c x.1 x.2 && isLightSquare (x.2, x.1)) (i1, s1.1) (i2, s2.1)
      rowPairs_nodup hpairne (mem_rowPairs _) (mem_rowPairs _)
      (by simp [hb1, hv]) (by simp [hb2, hveq, hv])
    have hid : (bishopComputedColors b c).countP id =
        rowPairs.countP (fun x => bishopAt b c x.1 x.2 && isLightSquare (x.2, x.1)) := by
      have := bishopColors_countP b c id
      simpa using this
    have hlen : 2 ≤ (bishopComputedColors b c).length := by
      calc 2 ≤ (bishopComputedColors b c).countP id := by rw [hid]; exact hcnt
        _ ≤ (bishopComputedColors b c).length := List.countP_le_length _
    simp only [hasBishopsOnSameColoredSquares, Bool.or_eq_true, Bool.and_eq_true,
      decide_eq_true_eq]
    cases c
    · exact Or.inl ⟨hlen, Or.inl (by rw [hid]; exact hcnt)⟩
    · exact Or.inr ⟨hlen, Or.inl (by rw [hid]; exact hcnt)⟩
  | false =>
    have hcnt := two_le_countP rowPairs
      (fun x => bishopAt b c x.1 x.2 && !isLightSquare (x.2, x.1)) (i1, s1.1) (i2, s2.1)
      rowPairs_nodup hpairne (mem_rowPairs _) (mem_rowPairs _)
      (by simp [hb1, hv]) (by simp [hb2, hveq, hv])
    have hnot : (bishopComputedColors b c).countP (fun y => !y) =
        rowPairs.countP (fun x => bishopAt b c x.1 x.2 && !isLightSquare (x.2, x.1)) :=
      bishopColors_countP b c (fun y => !y)
    have hsplit : (bishopComputedColors b c).length =
        (bishopComputedColors b c).countP id +
          (bishopComputedColors b c).countP (fun y => !y) := by
      have := List.length_eq_countP_add_countP (p := id) (l := bishopComputedColors b c)
      simpa using this
    have hdark : 2 ≤ (bishopComputedColors b c).length - (bishopComputedColors b c).countP id := by
      rw [hsplit]
      rw [hnot] at *
      omega
    have hlen : 2 ≤ (bishopComputedColors b c).length := by
      rw [hsplit, hnot]
      omega
    simp only [hasBishopsOnSameColoredSquares, Bool.or_eq_true, Bool.and_eq_true,
      decide_eq_true_eq]
    cases c
    · exact Or.inl ⟨hlen, Or.inr hdark⟩
    · exact Or.inr ⟨hlen, Or.inr hdark⟩

/-- C4: with `bishopsOnDifferentColors` enabled, every accepted candidate
passes the bishop-color filter, so each side retaining two bishops has them
on differently-colored squares (color = (file-index + rank-index) mod 2);
and a candidate whose placement violates the filter is rejected outright by
`placePieces` (returning the retry signal), never repaired. -/
theorem bishopsOnDifferentColors_spec (attacked : Board → Color → Bool)
    (legalMoves : Board → Color → Nat) (opts : PositionGeneratorOptions)
    (oracle : Nat → Nat × Nat) (fuel k : Nat) (b' : Board) (k' : Nat)
    (henabled : opts.fairnessChecks.bishopsOnDifferentColors = true)
    (h : generateCandidate attacked legalMoves opts oracle fuel k = some (b', k')) :
    hasBishopsOnSameColoredSquares b' = false ∧
    (∀ (c : Color) (s1 s2 : Square), b'.get s1 = some ⟨c, .bishop⟩ →
      b'.get s2 = some ⟨c, .bishop⟩ → s1 ≠ s2 →
      (s1.1.val + s1.2.val) % 2 ≠ (s2.1.val + s2.2.val) % 2) ∧
    (∀ (bIn : Board) (pieces : List Piece) (ranks : List (Fin 8)) (kIn : Nat)
        (bOut : Board) (kOut : Nat),
      placeLoop bIn pieces ranks oracle kIn = some (bOut, kOut) →
      hasBishopsOnSameColoredSquares bOut = true →
      placePieces attacked legalMoves bIn pieces ranks oracle kIn (some opts) = none) := by
  obtain ⟨-, -, -, hbish, -⟩ :=
    generateCandidate_spec attacked legalMoves opts oracle fuel k b' k' h
  have hfalse := hbish henabled
  refine ⟨hfalse, fun c s1 s2 h1 h2 hne =>
    bishops_differ_of_not_sameColored b' hfalse c s1 s2 h1 h2 hne, ?_⟩
  intro bIn pieces ranks kIn bOut kOut hpl hviol
  simp only [placePieces, hpl]
  by_cases h1 : (opts.fairnessChecks.kingsNotInCheck &&
      (isKingInCheck attacked bOut .white || isKingInCheck attacked bOut .black)) = true
  · rw [if_pos h1]
  · rw [if_neg h1, if_pos (by rw [henabled, hviol]; rfl)]

/-- Witness for C4: on the concretely generated board the filter reports no
violation and same-side bishops stand on opposite colors. -/
theorem bishopsOnDifferentColors_witness :
    hasBishopsOnSameColoredSquares demoBoard = false ∧
    (∀ (c : Color) (s1 s2 : Square), demoBoard.get s1 = some ⟨c, .bishop⟩ →
      demoBoard.get s2 = some ⟨c, .bishop⟩ → s1 ≠ s2 →
      (s1.1.val + s1.2.val) % 2 ≠ (s2.1.val + s2.2.val) % 2) ∧
    (∀ (bIn : Board) (pieces : List Piece) (ranks : List (Fin 8)) (kIn : Nat)
        (bOut : Board) (kOut : Nat),
      placeLoop bIn pieces ranks demoOracle kIn = some (bOut, kOut) →
      hasBishopsOnSameColoredSquares bOut = true →
      placePieces noAttack oneMove bIn pieces ranks demoOracle kIn
        (some DEFAULT_POSITION_OPTIONS) = none) :=
  bishopsOnDifferentColors_spec noAttack oneMove DEFAULT_POSITION_OPTIONS demoOracle 1 0
    demoBoard demoCounter rfl rfl

/-! ## The accept step: evaluation bound (C1) and side to move (C2) -/

/-- C1 (divergence evidence): with `evaluationWithinRange` enabled and
`maxEvaluation = 10`, a candidate whose engine analysis comes back at 40
centipawns with no forced mate still satisfies the accept condition of
`generateRandomPosition`, because the condition reads `analysis.isFair`
(the fixed 50-centipawn `SLIGHT_ADVANTAGE` threshold) and never consults
`maxEvaluation` or the `evaluationWithinRange` toggle. -/
theorem acceptCondition_ignores_maxEvaluation :
    c1Options.fairnessChecks.evaluationWithinRange = true ∧
    refreshPositionAnalysis demoWinCalc c1Inputs = .ok c1Info ∧
    c1Info.evaluation = 40 ∧
    c1Info.forcedMate = none ∧
    acceptCondition c1Options c1Info = true ∧
    ¬(|c1Info.evaluation| ≤ c1Options.maxEvaluation) := by
  have heval : c1Info.evaluation = 40 := by
    have h : c1Info.evaluation = (2 / 5 : ℚ) * CENTIPAWNS_TO_PAWNS := rfl
    rw [h]
    norm_num [CENTIPAWNS_TO_PAWNS]
  have hmate : c1Info.forcedMate = none := rfl
  have hfair : c1Info.isFair = true := by
    have h : c1Info.isFair = (decide ((none : Option Int) = none) &&
        decide (|(2 / 5 : ℚ) * CENTIPAWNS_TO_PAWNS| ≤
          EVALUATION_THRESHOLDS.SLIGHT_ADVANTAGE)) := rfl
    rw [h]
    have h2 : |(2 / 5 : ℚ) * CENTIPAWNS_TO_PAWNS| = 40 := by
      norm_num [CENTIPAWNS_TO_PAWNS]
    rw [h2]
    have h3 : ((40 : ℚ) ≤ EVALUATION_THRESHOLDS.SLIGHT_ADVANTAGE) := by
      norm_num [EVALUATION_THRESHOLDS.SLIGHT_ADVANTAGE]
    simp [h3]
  have hacc : acceptCondition c1Options c1Info = true := by
    unfold acceptCondition
    rw [hmate, hfair]
    rfl
  have hmax : c1Options.maxEvaluation = 10 := rfl
  refine ⟨rfl, rfl, heval, hmate, hacc, ?_⟩
  rw [heval, hmax]
  norm_num

theorem replaceTurnChars_cons_ne (t c : Char) (hc : c ≠ ' ') (l : List Char) :
    replaceTurnChars t (c :: l) = c :: replaceTurnChars t l := by
  rw [replaceTurnChars.eq_def]
  split
  · next c2 tail heq =>
    rw [List.cons.injEq] at heq
    exact absurd heq.1 hc
  · next c3 tail heq =>
    rw [List.cons.injEq] at heq
    rw [heq.1, heq.2]
  · next heq => exact absurd heq (List.cons_ne_nil c l)

theorem replaceTurnChars_boundary (t : Char) (p rest : List Char) (hp : ' ' ∉ p) :
    replaceTurnChars t (p ++ ' ' :: 'w' :: ' ' :: rest) = p ++ ' ' :: t :: ' ' :: rest := by
  induction p with
  | nil =>
    rw [List.nil_append, List.nil_append, replaceTurnChars, if_pos (Or.inl rfl)]
  | cons c p' ih =>
    have hc : c ≠ ' ' := fun he => hp (he ▸ List.mem_cons_self c p')
    rw [List.cons_append, replaceTurnChars_cons_ne t c hc, List.cons_append,
      ih (fun hm => hp (List.mem_cons_of_mem c hm))]

/-- C2: the accept step assigns the side-to-move field of the emitted FEN to
the disadvantaged side: the turn character of the result is `w` iff the
accepted candidate's evaluation is ≤ 0, and `b` iff it is > 0.  `p` is the
(space-free) piece-placement field produced by the external rules engine;
the FEN entering this step carries turn `w`. -/
theorem sideToMove_disadvantaged (winCalc : ℚ → Option Int → WinChance)
    (opts : PositionGeneratorOptions) (p rest : List Char)
    (analysis : PositionFairnessInfo) (hp : ' ' ∉ p)
    (hacc : acceptCondition opts analysis = true) :
    ∃ g,
      acceptCandidate winCalc opts (p ++ ' ' :: 'w' :: ' ' :: rest) analysis = some g ∧
      g.fen = p ++ ' ' :: (if analysis.evaluation ≤ 0 then 'w' else 'b') :: ' ' :: rest ∧
      ((if analysis.evaluation ≤ 0 then 'w' else 'b') = 'w' ↔ analysis.evaluation ≤ 0) ∧
      ((if analysis.evaluation ≤ 0 then 'w' else 'b') = 'b' ↔ 0 < analysis.evaluation) := by
  unfold acceptCandidate
  rw [hacc, if_pos rfl]
  refine ⟨_, rfl, ?_, ?_, ?_⟩
  · show replaceTurnChars _ _ = _
    rw [replaceTurnChars_boundary _ _ _ hp]
    by_cases he : analysis.evaluation ≤ 0
    · simp [he]
    · simp [he]
  · by_cases he : analysis.evaluation ≤ 0
    · simp [he]
    · simp [he]
  · by_cases he : analysis.evaluation ≤ 0
    · simp [he, not_lt.mpr he]
    · simp [he, not_le.mp he]

/-- Helper for the C2 witness: the concrete −30-centipawn analysis is
accepted. -/
theorem c2Info_accept : acceptCondition DEFAULT_POSITION_OPTIONS c2Info = true := by
  have hmate : c2Info.forcedMate = none := rfl
  have hfair : c2Info.isFair = true := by
    have h : c2Info.isFair = (decide ((none : Option Int) = none) &&
        decide (|(-(3 / 10) : ℚ) * CENTIPAWNS_TO_PAWNS| ≤
          EVALUATION_THRESHOLDS.SLIGHT_ADVANTAGE)) := rfl
    rw [h]
    have h2 : |(-(3 / 10) : ℚ) * CENTIPAWNS_TO_PAWNS| = 30 := by
      norm_num [CENTIPAWNS_TO_PAWNS]
    rw [h2]
    have h3 : ((30 : ℚ) ≤ EVALUATION_THRESHOLDS.SLIGHT_ADVANTAGE) := by
      norm_num [EVALUATION_THRESHOLDS.SLIGHT_ADVANTAGE]
    simp [h3]
  unfold acceptCondition
  rw [hmate, hfair]
  rfl

/-- Witness for C2: on a concrete placement and the −30-centipawn analysis,
the emitted FEN gives White the move. -/
theorem sideToMove_disadvantaged_witness :
    ∃ g,
      acceptCandidate demoWinCalc DEFAULT_POSITION_OPTIONS
        ("8/8/8/8/8/8/8/8".toList ++ ' ' :: 'w' :: ' ' :: "- - 0 1".toList) c2Info = some g ∧
      g.fen = "8/8/8/8/8/8/8/8".toList ++
        ' ' :: (if c2Info.evaluation ≤ 0 then 'w' else 'b') :: ' ' :: "- - 0 1".toList ∧
      ((if c2Info.evaluation ≤ 0 then 'w' else 'b') = 'w' ↔ c2Info.evaluation ≤ 0) ∧
      ((if c2Info.evaluation ≤ 0 then 'w' else 'b') = 'b' ↔ 0 < c2Info.evaluation) :=
  sideToMove_disadvantaged demoWinCalc DEFAULT_POSITION_OPTIONS
    "8/8/8/8/8/8/8/8".toList "- - 0 1".toList c2Info (by decide) c2Info_accept

/-! ## Refresh totality and fallback (C10) -/

/-- C10 counterexample: if the dynamic import of the engine module fails,
`refreshPositionAnalysis` rejects instead of resolving with the fallback
record — the `await import` sits before the `try` block. -/
theorem refresh_rejects_on_import_failure :
    refreshPositionAnalysis demoWinCalc c10Inputs = .error "ChunkLoadError" := rfl

/-- C10 (amended): once the engine module import has succeeded, the promise
always resolves; any failing step inside the `try` (FEN extraction, engine
evaluation, statistics) yields exactly the fixed fallback record, whose
fields are as the claim lists them (win chances summing to 100; all
optional statistics absent). -/
theorem refreshPositionAnalysis_total_fallback (winCalc : ℚ → Option Int → WinChance)
    (inp : RefreshInputs) (himp : inp.importResult = .ok ()) :
    (∃ info, refreshPositionAnalysis winCalc inp = .ok info) ∧
    ((inp.fenResult.isOk = false ∨ inp.analysisResult.isOk = false ∨
        inp.statsResult.isOk = false) →
      refreshPositionAnalysis winCalc inp = .ok fallbackFairnessInfo) ∧
    fallbackFairnessInfo.isLegal = false ∧
    fallbackFairnessInfo.isFair = false ∧
    fallbackFairnessInfo.evaluation = 0 ∧
    fallbackFairnessInfo.forcedMate = none ∧
    fallbackFairnessInfo.winChance = ⟨33, 33, 34⟩ ∧
    fallbackFairnessInfo.winChance.white + fallbackFairnessInfo.winChance.black +
      fallbackFairnessInfo.winChance.draw = 100 ∧
    fallbackFairnessInfo.materialCount = none ∧
    fallbackFairnessInfo.legalMovesCount = none ∧
    fallbackFairnessInfo.inCheck = none ∧
    fallbackFairnessInfo.moveNumber = none ∧
    fallbackFairnessInfo.halfmoveClock = none ∧
    fallbackFairnessInfo.repetition = none := by
  refine ⟨?_, ?_, rfl, rfl, rfl, rfl, rfl, rfl, rfl, rfl, rfl, rfl, rfl, rfl⟩
  · unfold refreshPositionAnalysis
    rw [himp]
    exact ⟨_, rfl⟩
  · intro hfail
    unfold refreshPositionAnalysis
    rw [himp]
    cases hfen : inp.fenResult with
    | error e => rfl
    | ok u =>
      cases hana : inp.analysisResult with
      | error e => rfl
      | ok a =>
        cases hstats : inp.statsResult with
        | error e => rfl
        | ok s =>
          exfalso
          rcases hfail with hf | hf | hf <;>
            simp [hfen, hana, hstats, Except.isOk, Except.toBool] at hf

/-- Witness for C10 (amended): concrete inputs whose FEN step fails produce
the fallback record. -/
theorem refreshPositionAnalysis_total_fallback_witness :
    (∃ info, refreshPositionAnalysis demoWinCalc c10FenFailInputs = .ok info) ∧
    ((c10FenFailInputs.fenResult.isOk = false ∨ c10FenFailInputs.analysisResult.isOk = false ∨
        c10FenFailInputs.statsResult.isOk = false) →
      refreshPositionAnalysis demoWinCalc c10FenFailInputs = .ok fallbackFairnessInfo) ∧
    fallbackFairnessInfo.isLegal = false ∧
    fallbackFairnessInfo.isFair = false ∧
    fallbackFairnessInfo.evaluation = 0 ∧
    fallbackFairnessInfo.forcedMate = none ∧
    fallbackFairnessInfo.winChance = ⟨33, 33, 34⟩ ∧
    fallbackFairnessInfo.winChance.white + fallbackFairnessInfo.winChance.black +
      fallbackFairnessInfo.winChance.draw = 100 ∧
    fallbackFairnessInfo.materialCount = none ∧
    fallbackFairnessInfo.legalMovesCount = none ∧
    fallbackFairnessInfo.inCheck = none ∧
    fallbackFairnessInfo.moveNumber = none ∧
    fallbackFairnessInfo.halfmoveClock = none ∧
    fallbackFairnessInfo.repetition = none :=
  refreshPositionAnalysis_total_fallback demoWinCalc c10FenFailInputs rfl

/-! ## Engine-client timeout behaviour (C5) -/

/-- C5 counterexample: a garbage/info line stream with no `bestmove` leaves
`evaluatePosition`'s promise pending — it is not rejected with a timeout
error (the promise executor registers no timer and no reject callback). -/
theorem evaluatePosition_unresolved_counterexample :
    evaluatePositionOutcome ["info depth 1 score cp 30"] = .pending ∧
    (PromiseOutcome.pending ≠ PromiseOutcome.rejected "Analysis timeout") := by
  constructor
  · rfl
  · intro h
    exact PromiseOutcome.noConfusion h

theorem processLine_no_resolve (st : EngineState) (line : String)
    (h : searchBestmove line.toList = none) : (processLine st line).2 = none := by
  unfold processLine
  by_cases hr : line = "readyok"
  · rw [if_pos hr]
  · rw [if_neg hr]
    dsimp only
    rw [h]
    cases hs : hasSubstr "bestmove" line.toList <;> simp [hs]

/-- C5 (amended): the in-process worker client applies no timeout — for any
stream of lines none of which carries a well-formed `bestmove`, the pending
evaluation stays unresolved forever (never rejected); the 10-second timeout
that rejects with `Analysis timeout` exists only in the server route's
per-attempt `Promise.race`. -/
theorem evaluatePosition_pending_forever (lines : List String)
    (h : ∀ l ∈ lines, searchBestmove l.toList = none) :
    evaluatePositionOutcome lines = .pending ∧
    analyzePositionRace .timesOut = .error "Analysis timeout" := by
  refine ⟨?_, rfl⟩
  have key : ∀ (ls : List String), (∀ l ∈ ls, searchBestmove l.toList = none) →
      ∀ st, (runLines st ls).2 = none := by
    intro ls
    induction ls with
    | nil => intro _ st; rfl
    | cons l rest ih =>
      intro hh st
      simp only [runLines]
      rw [processLine_no_resolve st l (hh l (List.mem_cons_self l rest))]
      exact ih (fun x hx => hh x (List.mem_cons_of_mem l hx)) _
  unfold evaluatePositionOutcome
  dsimp only
  rw [key lines h _]

/-- Witness for C5 (amended): a concrete no-bestmove stream. -/
theorem evaluatePosition_pending_forever_witness :
    evaluatePositionOutcome ["info depth 2", "garbage"] = .pending ∧
    analyzePositionRace .timesOut = .error "Analysis timeout" :=
  evaluatePosition_pending_forever ["info depth 2", "garbage"] (by decide)

/-! ## Backend fallback (C6) -/

/-- C6 counterexample: when the server backend is unreachable and the
in-process worker fails, `evaluateChessPosition` returns the constant
neutral analysis (score 0, no flag of any kind), not the material-count
estimate of the position — for the lone-queen board the estimate is 900. -/
theorem evaluateChessPosition_counterexample :
    evaluateChessPosition true false none (.error "fetch failed") (.error "worker failed") 15 =
      fallbackAnalysis 15 ∧
    (fallbackAnalysis 15).score = some 0 ∧
    estimateEvaluation c6Board = 900 ∧
    (0 : ℚ) ≠ (estimateEvaluation c6Board : ℚ) / CENTIPAWNS_TO_PAWNS := by
  have hest : estimateEvaluation c6Board = 900 := by decide
  refine ⟨rfl, rfl, hest, ?_⟩
  rw [hest]
  norm_num [CENTIPAWNS_TO_PAWNS]

/-- C6 (amended): the material-count fallback lives in the server route:
when every raced attempt fails, `POST` responds with the material estimate
and an explicit error message.  When the route itself is unreachable and
the worker fails too, `evaluateChessPosition` returns the neutral
`{score: 0, mate: null}` analysis with no degraded flag.  Both are plain
values — no backend failure escapes as an exception into the generation
loop. -/
theorem materialEstimate_fallback_spec (b : Board) (depth : Nat)
    (attempts : Nat → AttemptOutcome)
    (hall : ∀ i, i ≤ STOCKFISH_ANALYSIS.MAX_RETRIES → attempts i = .timesOut) :
    POST b depth attempts =
      { score := (estimateEvaluation b : ℚ) / CENTIPAWNS_TO_PAWNS, mate := none,
        bestMove := none, depth := depth,
        error := some "Analysis failed after multiple attempts, providing estimated evaluation only" } ∧
    (∀ (w2 : Except String StockfishAnalysis) (d : Nat),
      evaluateChessPosition true false none (.error "no backend") w2 d = fallbackAnalysis d) ∧
    (fallbackAnalysis depth).score = some 0 ∧ (fallbackAnalysis depth).mate = none := by
  refine ⟨?_, fun w2 d => rfl, rfl, rfl⟩
  have h0 := hall 0 (by norm_num [STOCKFISH_ANALYSIS.MAX_RETRIES])
  have h1 := hall 1 (by norm_num [STOCKFISH_ANALYSIS.MAX_RETRIES])
  have h2 := hall 2 (by norm_num [STOCKFISH_ANALYSIS.MAX_RETRIES])
  unfold POST
  have hloop : postTryFrom attempts 0 (STOCKFISH_ANALYSIS.MAX_RETRIES + 1) = none := by
    show postTryFrom attempts 0 3 = none
    simp only [postTryFrom, h0, h1, h2, analyzePositionRace]
  rw [hloop]

/-- Witness for C6 (amended): all three attempts time out on the lone-queen
board. -/
theorem materialEstimate_fallback_witness :
    POST c6Board 15 (fun _ => .timesOut) =
      { score := (estimateEvaluation c6Board : ℚ) / CENTIPAWNS_TO_PAWNS, mate := none,
        bestMove := none, depth := 15,
        error := some "Analysis failed after multiple attempts, providing estimated evaluation only" } ∧
    (∀ (w2 : Except String StockfishAnalysis) (d : Nat),
      evaluateChessPosition true false none (.error "no backend") w2 d = fallbackAnalysis d) ∧
    (fallbackAnalysis 15).score = some 0 ∧ (fallbackAnalysis 15).mate = none :=
  materialEstimate_fallback_spec c6Board 15 (fun _ => .timesOut) (fun _ _ => rfl)

/-! ## Evaluation formatting (C9) -/

/-- C9: `evaluationToString` renders +150 centipawns (no mate) as `+1.50`,
mate-in-3 for the side to move as `#3`, mate-in-(−3) as `#-3`, and whenever
`forcedMate` is non-null the mate branch takes precedence: the output is
independent of the numeric evaluation. -/
theorem evaluationToString_spec :
    evaluationToString 150 none = "+1.50" ∧
    evaluationToString 0 (some 3) = "#3" ∧
    evaluationToString 0 (some (-3)) = "#-3" ∧
    ∀ (e1 e2 m : Int), evaluationToString e1 (some m) = evaluationToString e2 (some m) := by
  refine ⟨rfl, rfl, rfl, fun e1 e2 m => rfl⟩

/-! ## Parser resolution analysis (C7) -/

theorem moveAt_isSome_iff (tail : List Char) :
    (moveAt tail).isSome = true ↔ ∃ f1 r1 f2 r2 post,
      tail = f1 :: r1 :: f2 :: r2 :: post ∧ isFileChar f1 = true ∧ isRankChar r1 = true ∧
        isFileChar f2 = true ∧ isRankChar r2 = true := by
  constructor
  · intro h
    match tail with
    | [] => simp [moveAt] at h
    | [f1] => simp [moveAt] at h
    | [f1, r1] => simp [moveAt] at h
    | [f1, r1, f2] => simp [moveAt] at h
    | f1 :: r1 :: f2 :: r2 :: rest =>
      by_cases hc : (isFileChar f1 && isRankChar r1 && isFileChar f2 && isRankChar r2) = true
      · simp only [Bool.and_eq_true] at hc
        exact ⟨f1, r1, f2, r2, rest, rfl, hc.1.1.1, hc.1.1.2, hc.1.2, hc.2⟩
      · simp [moveAt, hc] at h
  · rintro ⟨f1, r1, f2, r2, post, rfl, h1, h2, h3, h4⟩
    simp [moveAt, h1, h2, h3, h4]

theorem matchBestmoveAt_isSome_iff (cs : List Char) :
    (matchBestmoveAt cs).isSome = true ↔ AnchoredBestmove cs := by
  unfold matchBestmoveAt
  by_cases hpre : (("bestmove ".toList).isPrefixOf cs) = true
  · rw [if_pos hpre]
    obtain ⟨tail, htail⟩ := List.isPrefixOf_iff_prefix.mp hpre
    subst htail
    rw [show ("bestmove ".toList ++ tail).drop 9 = tail from by
      rw [show (9 : Nat) = ("bestmove ".toList).length from rfl, List.drop_left]]
    rw [moveAt_isSome_iff]
    unfold AnchoredBestmove
    constructor
    · rintro ⟨f1, r1, f2, r2, post, rfl, hh⟩
      exact ⟨f1, r1, f2, r2, post, rfl, hh⟩
    · rintro ⟨f1, r1, f2, r2, post, heq, hh⟩
      have heq2 := List.append_cancel_left heq
      exact ⟨f1, r1, f2, r2, post, heq2, hh⟩
  · rw [if_neg hpre]
    simp only [Option.isSome_none, Bool.false_eq_true, false_iff]
    rintro ⟨f1, r1, f2, r2, post, heq, -⟩
    apply hpre
    rw [List.isPrefixOf_iff_prefix, heq]
    exact ⟨_, rfl⟩

theorem searchBestmove_isSome_iff (cs : List Char) :
    (searchBestmove cs).isSome = true ↔ WellFormedBestmoveLine cs := by
  induction cs with
  | nil =>
    simp only [searchBestmove, Option.isSome_none, Bool.false_eq_true, false_iff]
    rintro ⟨pre, suf, heq, f1, r1, f2, r2, post, hsuf, -⟩
    rw [hsuf] at heq
    have hlen := congrArg List.length heq
    simp only [List.length_nil, List.length_append, List.length_cons] at hlen
    omega
  | cons c rest ih =>
    simp only [searchBestmove]
    cases hm : matchBestmoveAt (c :: rest) with
    | some mv =>
      simp only [Option.isSome_some, true_iff]
      have hA : AnchoredBestmove (c :: rest) :=
        (matchBestmoveAt_isSome_iff _).mp (by rw [hm]; rfl)
      exact ⟨[], c :: rest, rfl, hA⟩
    | none =>
      rw [ih]
      constructor
      · rintro ⟨pre, suf, heq, hA⟩
        exact ⟨c :: pre, suf, by rw [heq]; rfl, hA⟩
      · rintro ⟨pre, suf, heq, hA⟩
        cases pre with
        | nil =>
          rw [List.nil_append] at heq
          rw [← heq] at hA
          have hsome := (matchBestmoveAt_isSome_iff (c :: rest)).mpr hA
          rw [hm] at hsome
          simp at hsome
        | cons c2 pre2 =>
          rw [List.cons_append, List.cons.injEq] at heq
          exact ⟨pre2, suf, heq.2, hA⟩

theorem searchBestmove_hasSubstr (cs mv : List Char) (h : searchBestmove cs = some mv) :
    hasSubstr "bestmove" cs = true := by
  have hwf := (searchBestmove_isSome_iff cs).mp (by rw [h]; rfl)
  obtain ⟨pre, suf, rfl, f1, r1, f2, r2, post, rfl, -⟩ := hwf
  unfold hasSubstr
  apply decide_eq_true
  exact ⟨pre, ' ' :: f1 :: r1 :: f2 :: r2 :: post, by simp⟩

/-- C7: the message handler is a total function of the incoming line (a
truncated or garbage line is processed without effect on the pending
request), and it resolves the pending evaluation exactly when a request is
pending and the line contains `bestmove ` followed by a well-formed
coordinate move; the resolved analysis always carries the parsed best
move on top of the accumulated data. -/
theorem parser_resolution_spec (st : EngineState) (line : String) :
    ((processLine st line).2.isSome = true ↔
      (st.bestmovePending = true ∧ WellFormedBestmoveLine line.toList)) ∧
    (∀ a, (processLine st line).2 = some a → a.bestMove.isSome = true) := by
  cases hsb : searchBestmove line.toList with
  | none =>
    have hres : (processLine st line).2 = none := processLine_no_resolve st line hsb
    rw [hres]
    constructor
    · simp only [Option.isSome_none, Bool.false_eq_true, false_iff, not_and]
      intro _ hwf
      have h2 := (searchBestmove_isSome_iff line.toList).mpr hwf
      rw [hsb] at h2
      simp at h2
    · intro a ha
      exact absurd ha (by simp)
  | some mv =>
    have hbs : hasSubstr "bestmove" line.toList = true := searchBestmove_hasSubstr _ _ hsb
    have hwf : WellFormedBestmoveLine line.toList :=
      (searchBestmove_isSome_iff line.toList).mp (by rw [hsb]; rfl)
    have hr : line ≠ "readyok" := by
      intro he
      rw [he] at hsb
      rw [show searchBestmove ("readyok".toList) = none from by decide] at hsb
      exact Option.noConfusion hsb
    have hresT : st.bestmovePending = true →
        ∃ a', (processLine st line).2 = some a' ∧ a'.bestMove = some (String.mk mv) := by
      intro hp
      unfold processLine
      rw [if_neg hr]
      dsimp only
      rw [hsb, if_pos hbs, hp]
      exact ⟨_, rfl, rfl⟩
    have hresF : st.bestmovePending = false → (processLine st line).2 = none := by
      intro hp
      unfold processLine
      rw [if_neg hr]
      dsimp only
      rw [hsb, if_pos hbs, hp]
      rfl
    cases hp : st.bestmovePending
    · rw [hresF hp]
      constructor
      · simp
      · intro a ha
        exact absurd ha (by simp)
    · obtain ⟨a', he, hbm⟩ := hresT hp
      rw [he]
      constructor
      · exact iff_of_true rfl ⟨rfl, hwf⟩
      · intro a ha
        rw [Option.some.injEq] at ha
        rw [← ha, hbm]
        rfl

/-- Witness for C7: a well-formed resolving line on a pending client. -/
theorem parser_resolution_spec_witness :
    ((processLine pendingEngineState "bestmove e2e4").2.isSome = true ↔
      (pendingEngineState.bestmovePending = true ∧
        WellFormedBestmoveLine ("bestmove e2e4").toList)) ∧
    (∀ a, (processLine pendingEngineState "bestmove e2e4").2 = some a →
      a.bestMove.isSome = true) :=
  parser_resolution_spec pendingEngineState "bestmove e2e4"

/-! ## Win-chance sum analysis (C8) -/

theorem round_le_add_half (x : ℝ) : (round x : ℝ) ≤ x + 1 / 2 := by
  have h := abs_sub_round x
  rw [abs_le] at h
  linarith [h.1]

theorem sub_half_le_round (x : ℝ) : x - 1 / 2 ≤ (round x : ℝ) := by
  have h := abs_sub_round x
  rw [abs_le] at h
  linarith [h.2]

theorem round_nonneg_of_ge_neg_half (x : ℝ) (h : -(1 / 2 : ℝ) ≤ x) : 0 ≤ round x := by
  rw [round_eq]
  exact Int.le_floor.mpr (by push_cast; linarith)

/-- The rounding arithmetic behind the ±1 bound: three rounded shares whose
real values sum to 100 (with the clamped shares at least −1/2 before
clamping, and the draw share in [0, 30]) give non-negative integers summing
to 99–101. -/
theorem round_triple_bounds (a b d : ℝ) (hsum : a + b + d = 100) (hd0 : 0 ≤ d)
    (hd30 : d ≤ 30) (ha : -(1 / 2 : ℝ) ≤ a) (hb : -(1 / 2 : ℝ) ≤ b) :
    0 ≤ round (max 0 a) ∧ 0 ≤ round (max 0 b) ∧ 0 ≤ round d ∧
    99 ≤ round (max 0 a) + round (max 0 b) + round d ∧
    round (max 0 a) + round (max 0 b) + round d ≤ 101 := by
  have hma0 : (0 : ℝ) ≤ max 0 a := le_max_left 0 a
  have hmb0 : (0 : ℝ) ≤ max 0 b := le_max_left 0 b
  have hmaa : a ≤ max 0 a := le_max_right 0 a
  have hmbb : b ≤ max 0 b := le_max_right 0 b
  have h1 : 0 ≤ round (max 0 a) := round_nonneg_of_ge_neg_half _ (by linarith)
  have h2 : 0 ≤ round (max 0 b) := round_nonneg_of_ge_neg_half _ (by linarith)
  have h3 : 0 ≤ round d := round_nonneg_of_ge_neg_half _ (by linarith)
  have hra1 := sub_half_le_round (max 0 a)
  have hrb1 := sub_half_le_round (max 0 b)
  have hrd1 := sub_half_le_round d
  have hra2 := round_le_add_half (max 0 a)
  have hrb2 := round_le_add_half (max 0 b)
  have hrd2 := round_le_add_half d
  refine ⟨h1, h2, h3, ?_, ?_⟩
  · have hlow : (98.5 : ℝ) ≤
        (round (max 0 a) : ℝ) + (round (max 0 b) : ℝ) + (round d : ℝ) := by
      linarith
    have hcast : (98.5 : ℝ) ≤ ((round (max 0 a) + round (max 0 b) + round d : ℤ) : ℝ) := by
      push_cast
      linarith
    have : (98 : ℤ) < round (max 0 a) + round (max 0 b) + round d := by
      by_contra hcon
      push_neg at hcon
      have : ((round (max 0 a) + round (max 0 b) + round d : ℤ) : ℝ) ≤ 98 := by
        exact_mod_cast hcon
      linarith
    omega
  · rcases le_or_lt 0 a with hpa | hna
    · rcases le_or_lt 0 b with hpb | hnb
      · rw [max_eq_right hpa, max_eq_right hpb]
        have ha2 := round_le_add_half a
        have hb2 := round_le_add_half b
        have hd2 := round_le_add_half d
        have hlt : ((round a + round b + round d : ℤ) : ℝ) < 102 := by
          push_cast
          linarith
        have h102 : round a + round b + round d < 102 := by exact_mod_cast hlt
        omega
      · rw [max_eq_right hpa, max_eq_left (le_of_lt hnb), round_zero]
        have ha2 := round_le_add_half a
        have hd2 := round_le_add_half d
        have hlt : ((round a + round d : ℤ) : ℝ) < 102 := by
          push_cast
          linarith
        have h102 : round a + round d < 102 := by exact_mod_cast hlt
        omega
    · rw [max_eq_left (le_of_lt hna), max_eq_right (by linarith : (0 : ℝ) ≤ b), round_zero]
      have hb2 := round_le_add_half b
      have hd2 := round_le_add_half d
      have hlt : ((round b + round d : ℤ) : ℝ) < 102 := by
        push_cast
        linarith
      have h102 : round b + round d < 102 := by exact_mod_cast hlt
      omega

theorem one_add_third_cube_le_exp (u : ℝ) (hu : 0 ≤ u) : (1 + u / 3) ^ 3 ≤ Real.exp u := by
  have h := Real.add_one_le_exp (u / 3)
  have hbase : (0 : ℝ) ≤ 1 + u / 3 := by linarith
  calc (1 + u / 3) ^ 3 ≤ (Real.exp (u / 3)) ^ 3 := by
        apply pow_le_pow_left hbase
        linarith
    _ = Real.exp u := by
        rw [← Real.exp_nat_mul]
        congr 1
        push_cast
        ring

set_option maxHeartbeats 1600000 in
/-- The heart of the C8 bound: half the maximum draw probability scaled by
the Gaussian never exceeds the logistic winning share by more than 1/2, at
every real evaluation. -/
theorem sigmoid_dominates_draw (x : ℝ) :
    WIN_PROBABILITY.MAX_DRAW_PROB / 2 *
        Real.exp (-(x / WIN_PROBABILITY.DRAW_THRESHOLD) ^ 2) ≤
      100 / (1 + Real.exp (-WIN_PROBABILITY.SIGMOID_FACTOR * x)) + 1 / 2 := by
  have hM : WIN_PROBABILITY.MAX_DRAW_PROB = 30 := rfl
  have hD : WIN_PROBABILITY.DRAW_THRESHOLD = 350 := rfl
  have hk : WIN_PROBABILITY.SIGMOID_FACTOR = 0.004 := rfl
  rw [hM, hD, hk]
  have he1 := Real.exp_one_lt_d9
  have he1pos := (Real.exp_pos 1).le
  rcases le_or_lt 0 x with hx | hx
  · have hEle : Real.exp (-(0.004 : ℝ) * x) ≤ 1 := by
      apply Real.exp_le_one_iff.mpr
      nlinarith
    have hEpos := Real.exp_pos (-(0.004 : ℝ) * x)
    have hW : (50 : ℝ) ≤ 100 / (1 + Real.exp (-(0.004 : ℝ) * x)) := by
      rw [le_div_iff (by linarith)]
      linarith
    have hdexp : Real.exp (-(x / 350) ^ 2) ≤ 1 := by
      apply Real.exp_le_one_iff.mpr
      nlinarith [sq_nonneg (x / 350)]
    have hde := (Real.exp_pos (-(x / 350) ^ 2)).le
    linarith
  · set t : ℝ := -x with ht
    have htpos : 0 < t := by simp [ht]; linarith
    have hrw1 : -(0.004 : ℝ) * x = 0.004 * t := by rw [ht]; ring
    have hrw2 : ((x / 350 : ℝ)) ^ 2 = (t / 350) ^ 2 := by rw [ht]; ring
    rw [hrw1, hrw2]
    have hEpos := Real.exp_pos ((0.004 : ℝ) * t)
    have hupos : (0 : ℝ) ≤ (t / 350) ^ 2 := by positivity
    have hcube := one_add_third_cube_le_exp ((t / 350) ^ 2) hupos
    have hdpos := (Real.exp_pos (-(t / 350) ^ 2)).le
    have hWpos : (0 : ℝ) < 100 / (1 + Real.exp ((0.004 : ℝ) * t)) := by positivity
    have hinv : Real.exp (-(t / 350) ^ 2) = (Real.exp ((t / 350) ^ 2))⁻¹ := Real.exp_neg _
    have hexpu_pos := Real.exp_pos ((t / 350) ^ 2)
    have he1a : Real.exp 1 < 2.72 := lt_trans he1 (by norm_num)
    have hexp2 : Real.exp 2 < 7.3984 := by
      have h := pow_lt_pow_left he1a he1pos (two_ne_zero)
      rw [show (2 : ℝ) = (2 : ℕ) * 1 by norm_num, Real.exp_nat_mul]
      calc (Real.exp 1) ^ 2 < 2.72 ^ 2 := h
        _ = 7.3984 := by norm_num
    have hexp3 : Real.exp 3 < 20.123648 := by
      have h := pow_lt_pow_left he1a he1pos (three_ne_zero)
      rw [show (3 : ℝ) = (3 : ℕ) * 1 by norm_num, Real.exp_nat_mul]
      calc (Real.exp 1) ^ 3 < 2.72 ^ 3 := h
        _ = 20.123648 := by norm_num
    have hexp4 : Real.exp 4 < 54.74 := by
      have h := pow_lt_pow_left he1a he1pos (by norm_num : (4 : ℕ) ≠ 0)
      rw [show (4 : ℝ) = (4 : ℕ) * 1 by norm_num, Real.exp_nat_mul]
      calc (Real.exp 1) ^ 4 < 2.72 ^ 4 := h
        _ < 54.74 := by norm_num
    rcases le_or_lt t 250 with h250 | h250
    · have hEle : Real.exp ((0.004 : ℝ) * t) ≤ Real.exp 1 :=
        Real.exp_le_exp.mpr (by linarith)
      have hW : (26.8 : ℝ) ≤ 100 / (1 + Real.exp ((0.004 : ℝ) * t)) := by
        rw [le_div_iff (by positivity)]
        nlinarith
      have hdexp : Real.exp (-(t / 350) ^ 2) ≤ 1 := by
        apply Real.exp_le_one_iff.mpr
        nlinarith [sq_nonneg (t / 350)]
      linarith
    · rcases le_or_lt t 500 with h500 | h500
      · have hEle : Real.exp ((0.004 : ℝ) * t) ≤ Real.exp 2 :=
          Real.exp_le_exp.mpr (by linarith)
        have hW : (11.9 : ℝ) ≤ 100 / (1 + Real.exp ((0.004 : ℝ) * t)) := by
          rw [le_div_iff (by positivity)]
          nlinarith
        have hu : (25 / 49 : ℝ) ≤ (t / 350) ^ 2 := by
          nlinarith [sq_nonneg (t / 350 - 5 / 7)]
        have hlb : ((172 / 147 : ℝ)) ^ 3 ≤ Real.exp ((t / 350) ^ 2) := by
          calc ((172 / 147 : ℝ)) ^ 3 ≤ (1 + (t / 350) ^ 2 / 3) ^ 3 := by
                apply pow_le_pow_left (by norm_num)
                linarith
            _ ≤ Real.exp ((t / 350) ^ 2) := hcube
        have hub : Real.exp (-(t / 350) ^ 2) ≤ ((172 / 147 : ℝ) ^ 3)⁻¹ := by
          rw [hinv]
          apply inv_le_inv_of_le (by norm_num) hlb
        have hc : (15 : ℝ) * ((172 / 147 : ℝ) ^ 3)⁻¹ ≤ 9.37 := by norm_num
        linarith
      · rcases le_or_lt t 750 with h750 | h750
        · have hEle : Real.exp ((0.004 : ℝ) * t) ≤ Real.exp 3 :=
            Real.exp_le_exp.mpr (by linarith)
          have hW : (4.7 : ℝ) ≤ 100 / (1 + Real.exp ((0.004 : ℝ) * t)) := by
            rw [le_div_iff (by positivity)]
            nlinarith
          have hu : (100 / 49 : ℝ) ≤ (t / 350) ^ 2 := by
            nlinarith [sq_nonneg (t / 350 - 10 / 7)]
          have hlb : ((247 / 147 : ℝ)) ^ 3 ≤ Real.exp ((t / 350) ^ 2) := by
            calc ((247 / 147 : ℝ)) ^ 3 ≤ (1 + (t / 350) ^ 2 / 3) ^ 3 := by
                  apply pow_le_pow_left (by norm_num)
                  linarith
              _ ≤ Real.exp ((t / 350) ^ 2) := hcube
          have hub : Real.exp (-(t / 350) ^ 2) ≤ ((247 / 147 : ℝ) ^ 3)⁻¹ := by
            rw [hinv]
            apply inv_le_inv_of_le (by norm_num) hlb
          have hc : (15 : ℝ) * ((247 / 147 : ℝ) ^ 3)⁻¹ ≤ 3.17 := by norm_num
          linarith
        · rcases le_or_lt t 1000 with h1000 | h1000
          · have hEle : Real.exp ((0.004 : ℝ) * t) ≤ Real.exp 4 :=
              Real.exp_le_exp.mpr (by linarith)
            have hW : (1.79 : ℝ) ≤ 100 / (1 + Real.exp ((0.004 : ℝ) * t)) := by
              rw [le_div_iff (by positivity)]
              nlinarith
            have hu : (225 / 49 : ℝ) ≤ (t / 350) ^ 2 := by
              nlinarith [sq_nonneg (t / 350 - 15 / 7)]
            have hlb : ((124 / 49 : ℝ)) ^ 3 ≤ Real.exp ((t / 350) ^ 2) := by
              calc ((124 / 49 : ℝ)) ^ 3 ≤ (1 + (t / 350) ^ 2 / 3) ^ 3 := by
                    apply pow_le_pow_left (by norm_num)
                    linarith
                _ ≤ Real.exp ((t / 350) ^ 2) := hcube
            have hub : Real.exp (-(t / 350) ^ 2) ≤ ((124 / 49 : ℝ) ^ 3)⁻¹ := by
              rw [hinv]
              apply inv_le_inv_of_le (by norm_num) hlb
            have hc : (15 : ℝ) * ((124 / 49 : ℝ) ^ 3)⁻¹ ≤ 0.93 := by norm_num
            linarith
          · have hu : (400 / 49 : ℝ) ≤ (t / 350) ^ 2 := by
              nlinarith [sq_nonneg (t / 350 - 20 / 7)]
            have hlb : ((547 / 147 : ℝ)) ^ 3 ≤ Real.exp ((t / 350) ^ 2) := by
              calc ((547 / 147 : ℝ)) ^ 3 ≤ (1 + (t / 350) ^ 2 / 3) ^ 3 := by
                    apply pow_le_pow_left (by norm_num)
                    linarith
                _ ≤ Real.exp ((t / 350) ^ 2) := hcube
            have hub : Real.exp (-(t / 350) ^ 2) ≤ ((547 / 147 : ℝ) ^ 3)⁻¹ := by
              rw [hinv]
              apply inv_le_inv_of_le (by norm_num) hlb
            have hc : (15 : ℝ) * ((547 / 147 : ℝ) ^ 3)⁻¹ ≤ 1 / 2 := by norm_num
            linarith

/-- The win/draw shares as the source computes them (clamp, divide by 100,
rescale, round) obey the 99–101 sum bound whenever the raw shares are at
least −1/2. -/
theorem shares_bounds (W d : ℝ) (hd0 : 0 ≤ d) (hd30 : d ≤ 30)
    (ha : -(1 / 2 : ℝ) ≤ W - d / 2) (hb : -(1 / 2 : ℝ) ≤ 100 - W - d / 2) :
    0 ≤ round (max 0 ((W - d / 2) / 100) * 100) ∧
    0 ≤ round (max 0 ((100 - W - d / 2) / 100) * 100) ∧
    0 ≤ round d ∧
    99 ≤ round (max 0 ((W - d / 2) / 100) * 100) +
      round (max 0 ((100 - W - d / 2) / 100) * 100) + round d ∧
    round (max 0 ((W - d / 2) / 100) * 100) +
      round (max 0 ((100 - W - d / 2) / 100) * 100) + round d ≤ 101 := by
  have hma : max 0 ((W - d / 2) / 100) * 100 = max 0 (W - d / 2) := by
    rw [max_mul_of_nonneg _ _ (by norm_num : (0 : ℝ) ≤ 100)]
    norm_num
  have hmb : max 0 ((100 - W - d / 2) / 100) * 100 = max 0 (100 - W - d / 2) := by
    rw [max_mul_of_nonneg _ _ (by norm_num : (0 : ℝ) ≤ 100)]
    norm_num
  rw [hma, hmb]
  exact round_triple_bounds (W - d / 2) (100 - W - d / 2) d (by ring) hd0 hd30 ha hb

/-- C8: for every finite centipawn evaluation with no forced mate, the three
win-chance components are non-negative integers and their sum is 100 up to
±1 from rounding. -/
theorem calculateWinChances_sum_bounds (e : ℝ) :
    0 ≤ (calculateWinChances e none).white ∧
    0 ≤ (calculateWinChances e none).black ∧
    0 ≤ (calculateWinChances e none).draw ∧
    99 ≤ (calculateWinChances e none).white + (calculateWinChances e none).black +
      (calculateWinChances e none).draw ∧
    (calculateWinChances e none).white + (calculateWinChances e none).black +
      (calculateWinChances e none).draw ≤ 101 := by
  by_cases hex : |e| > ((EVALUATION_THRESHOLDS.MATE_THRESHOLD : ℚ) : ℝ)
  · by_cases hegt : e > 0
    · simp only [calculateWinChances, if_pos hex, if_pos hegt]
      norm_num
    · simp only [calculateWinChances, if_pos hex, if_neg hegt]
      norm_num
  · simp only [calculateWinChances, if_neg hex, ite_self]
    have hM : WIN_PROBABILITY.MAX_DRAW_PROB = 30 := rfl
    set E := Real.exp (-WIN_PROBABILITY.SIGMOID_FACTOR * e) with hE
    have hEpos : 0 < E := Real.exp_pos _
    set x0 := WIN_PROBABILITY.MAX_DRAW_PROB *
      Real.exp (-(e / WIN_PROBABILITY.DRAW_THRESHOLD) ^ 2) with hx0
    have hx0nn : 0 ≤ x0 := by
      rw [hx0, hM]
      positivity
    set d0 := max 0 (min WIN_PROBABILITY.MAX_DRAW_PROB x0) with hd0
    have hd0nn : (0 : ℝ) ≤ d0 := le_max_left _ _
    have hd030 : d0 ≤ 30 := by
      rw [hd0]
      exact max_le (by norm_num) ((min_le_left _ _).trans (le_of_eq hM))
    have hd0x : d0 ≤ x0 := by
      rw [hd0]
      exact max_le hx0nn (min_le_right _ _)
    have hWeq : 50 + 50 * (2 / (1 + E) - 1) = 100 / (1 + E) := by
      field_simp
      ring
    have hkey1 := sigmoid_dominates_draw e
    rw [← hE] at hkey1
    have ha : -(1 / 2 : ℝ) ≤ (50 + 50 * (2 / (1 + E) - 1)) - d0 / 2 := by
      rw [hWeq]
      have hxx : x0 / 2 ≤ 100 / (1 + E) + 1 / 2 := by
        rw [hx0]
        linarith
      linarith
    have hFpos : 0 < Real.exp (WIN_PROBABILITY.SIGMOID_FACTOR * e) := Real.exp_pos _
    have hEinv : E = (Real.exp (WIN_PROBABILITY.SIGMOID_FACTOR * e))⁻¹ := by
      rw [hE, neg_mul, Real.exp_neg]
    have hWcomp : 100 - 100 / (1 + E) =
        100 / (1 + Real.exp (WIN_PROBABILITY.SIGMOID_FACTOR * e)) := by
      rw [hEinv]
      have h1 : (0 : ℝ) < 1 + Real.exp (WIN_PROBABILITY.SIGMOID_FACTOR * e) := by linarith
      field_simp
      ring
    have hkey2 := sigmoid_dominates_draw (-e)
    have hr1 : (((-e) / WIN_PROBABILITY.DRAW_THRESHOLD) ^ 2 : ℝ) =
        (e / WIN_PROBABILITY.DRAW_THRESHOLD) ^ 2 := by ring
    have hr2 : -WIN_PROBABILITY.SIGMOID_FACTOR * (-e) = WIN_PROBABILITY.SIGMOID_FACTOR * e := by
      ring
    rw [hr1, hr2] at hkey2
    have hb : -(1 / 2 : ℝ) ≤ 100 - (50 + 50 * (2 / (1 + E) - 1)) - d0 / 2 := by
      rw [hWeq]
      have hxx : x0 / 2 ≤ 100 / (1 + Real.exp (WIN_PROBABILITY.SIGMOID_FACTOR * e)) + 1 / 2 := by
        rw [hx0]
        linarith
      linarith [hWcomp]
    exact shares_bounds _ _ hd0nn hd030 ha hb

end RandomChess
